import Mathlib

/-!
# Verification of the Socratic agent / domain-discovery core

A shallow embedding, in Lean 4, of the Python modules
`langflow/agent/state_manager.py`, `controller.py`, `socratic_engine.py` and
`domain_discovery.py`, together with theorems settling the frozen claims
C1..C10 about them.

Conventions of the embedding:
* Python strings are Lean `String`s (ASCII inputs); `str.lower` is mapped
  character-wise (`Char.toLower`), `in` (substring test) is `strContains`.
* Every float literal the scoring arithmetic combines (0.1, 0.2, 0.5,
  0.6, 0.8, 0.85, 0.9, 0.95, ...) is a multiple of 1/20, and the source
  only adds them and takes min, so confidences and relevance scores are
  embedded exactly as integer numbers of twentieths (`ℕ`); the
  interpretation `confQ k = k / 20 : ℚ` recovers the literal value and is
  what the theorem statements use.  All comparisons the source performs
  on these quantities are reflected order-faithfully.
* Python dicts are insertion-ordered association lists; `dict[k] = v`
  replaces in place or appends (`setKey`), `dict.update` folds `setKey`.
* Wall-clock readings (`datetime.now()`) are explicit parameters.
* A Python `try/except` boundary is embedded by giving the handler an
  `Except`-valued argument standing for the outcome of the guarded block.
-/

/-! ## String utilities (Python `str` operations used by the sources) -/

/-- Character-wise lower-casing, Python `str.lower` on ASCII text. -/
def strLower (s : String) : String := ⟨s.data.map Char.toLower⟩

/-- `pat` occurs as a prefix of `hay` (on character lists). -/
def prefixAt : List Char → List Char → Bool
  | [], _ => true
  | _ :: _, [] => false
  | p :: ps, h :: hs => p = h && prefixAt ps hs

/-- `pat` occurs as a contiguous substring of `hay` (on character lists). -/
def subAt : List Char → List Char → Bool
  | pat, [] => prefixAt pat []
  | pat, h :: hs => prefixAt pat (h :: hs) || subAt pat hs

/-- Python `pat in hay` for strings: contiguous substring test. -/
def strContains (hay pat : String) : Bool := subAt pat.data hay.data

/-- Python whitespace test for `str.strip` / `\s` (ASCII fragment). -/
def isPyWhitespace (c : Char) : Bool :=
  c = ' ' || c = '\t' || c = '\n' || c = '\r' || c = '\x0b' || c = '\x0c'

/-- Python `str.strip()` (ASCII whitespace). -/
def strStrip (s : String) : String :=
  ⟨((s.data.dropWhile isPyWhitespace).reverse.dropWhile isPyWhitespace).reverse⟩

/-- Python `str.isdigit()` on ASCII text: non-empty and all digits. -/
def strIsDigit (s : String) : Bool := !s.data.isEmpty && s.data.all Char.isDigit

/-- Value of an all-digit ASCII string, Python `int(s)`. -/
def digitsToNat (s : String) : ℕ :=
  s.data.foldl (fun a c => 10 * a + (c.toNat - 48)) 0

/-! ## Domain classifier (`DomainDiscoveryEngine._classify_domain`)

The six keyword buckets appear below in the source's `if/elif` order
(healthcare, finance, manufacturing, retail, education, technology): the
first bucket whose term list has a member occurring inside the indicator
receives the point, and the later tests are skipped (`elif`). -/

def healthcareTerms : List String :=
  ["healthcare", "medical", "patient", "clinical", "hipaa", "phi"]

def financeTerms : List String :=
  ["finance", "banking", "payment", "trading", "sox", "pci"]

def manufacturingTerms : List String :=
  ["manufacturing", "supply", "inventory", "production"]

def retailTerms : List String :=
  ["retail", "commerce", "customer", "sales", "crm"]

def educationTerms : List String :=
  ["education", "learning", "student", "course"]

def technologyTerms : List String :=
  ["api", "database", "cloud", "microservice"]

/-- The six buckets in the source's test order (the priority order). -/
def domainBuckets : List (String × List String) :=
  [("healthcare", healthcareTerms), ("finance", financeTerms),
   ("manufacturing", manufacturingTerms), ("retail", retailTerms),
   ("education", educationTerms), ("technology", technologyTerms)]

/-- `any(term in indicator for term in terms)`. -/
def indMatches (ind : String) (terms : List String) : Bool :=
  terms.any (fun t => strContains ind t)

/-- The first bucket (in priority order) one of whose terms occurs inside
the indicator; `none` when no bucket matches. This is the specification-side
reading of the source's `if/elif` chain. -/
def firstBucket (ind : String) : Option String :=
  if indMatches ind healthcareTerms then some "healthcare"
  else if indMatches ind financeTerms then some "finance"
  else if indMatches ind manufacturingTerms then some "manufacturing"
  else if indMatches ind retailTerms then some "retail"
  else if indMatches ind educationTerms then some "education"
  else if indMatches ind technologyTerms then some "technology"
  else none

/-- `domain_scores[k] = domain_scores.get(k, 0) + 1` on an insertion-ordered
association list. -/
def bump : List (String × ℕ) → String → List (String × ℕ)
  | [], k => [(k, 1)]
  | (k', v) :: rest, k =>
    if k' = k then (k', v + 1) :: rest else (k', v) :: bump rest k

/-- One iteration of the classifier's scoring loop, the literal `if/elif`
chain of `_classify_domain`. -/
def classifyStep (sc : List (String × ℕ)) (ind : String) : List (String × ℕ) :=
  if indMatches ind healthcareTerms then bump sc "healthcare"
  else if indMatches ind financeTerms then bump sc "finance"
  else if indMatches ind manufacturingTerms then bump sc "manufacturing"
  else if indMatches ind retailTerms then bump sc "retail"
  else if indMatches ind educationTerms then bump sc "education"
  else if indMatches ind technologyTerms then bump sc "technology"
  else sc

/-- `max(domain_scores, key=domain_scores.get)` with the value attached:
the first entry, in insertion order, holding the maximal value. -/
def maxEntry (sc : List (String × ℕ)) : Option (String × ℕ) :=
  sc.foldl (fun acc p =>
    match acc with
    | none => some p
    | some q => if p.2 > q.2 then some p else some q) none

/-- Interpretation of an embedded confidence / relevance score (an integer
number of twentieths) as the rational the source's float literal denotes. -/
def confQ (k : ℕ) : ℚ := (k : ℚ) / 20

/-- `DomainDiscoveryEngine._classify_domain`.  The source's `text` parameter
is unused by its body and is omitted.  Returns the winning domain and the
confidence `min(0.9, 0.5 + max_score * 0.2)` — in twentieths:
`min 18 (10 + max_score * 4)`; `("general", 0.1)` (= 2 twentieths) without
indicators, `("general", 0.2)` (= 4) when no indicator scored a bucket. -/
def classifyDomain (indicators : List String) : String × ℕ :=
  if indicators.isEmpty then ("general", 2)
  else
    match maxEntry (indicators.foldl classifyStep []) with
    | some (b, m) => (b, min 18 (10 + m * 4))
    | none => ("general", 4)

/-- Specification-side count: how many indicators give their point to
bucket `b` (each indicator counted once, at its first matching bucket). -/
def bucketCount (indicators : List String) (b : String) : ℕ :=
  (indicators.filter (fun i => firstBucket i = some b)).length

/-- Specification-side maximal bucket score. -/
def maxCount (indicators : List String) : ℕ :=
  (domainBuckets.map (fun b => bucketCount indicators b.1)).foldr max 0

/-- Value stored for key `b` in a score list (0 when absent). -/
def valAt : List (String × ℕ) → String → ℕ
  | [], _ => 0
  | p :: rest, b => if p.1 = b then p.2 else valAt rest b

example : classifyDomain [] = ("general", 2) := by decide
example : classifyDomain ["xyz"] = ("general", 4) := by decide
example : classifyDomain ["patient"] = ("healthcare", 14) := by decide
example : classifyDomain ["patient", "medical"] = ("healthcare", 18) := by decide
example : firstBucket "hipaa" = some "healthcare" := by decide
example : firstBucket "supply chain" = some "manufacturing" := by decide

/-! ### Classifier lemmas: the scoring fold counts, per bucket, the
indicators whose *first* matching bucket it is. -/

theorem classifyStep_eq (sc : List (String × ℕ)) (ind : String) :
    classifyStep sc ind =
      match firstBucket ind with
      | some b => bump sc b
      | none => sc := by
  unfold classifyStep firstBucket
  split_ifs <;> rfl

theorem bump_ne_nil (sc : List (String × ℕ)) (k : String) : bump sc k ≠ [] := by
  cases sc with
  | nil => simp [bump]
  | cons p rest =>
    obtain ⟨k', v⟩ := p
    simp only [bump]
    split_ifs <;> simp

theorem valAt_nil (b : String) : valAt [] b = 0 := rfl

theorem valAt_bump (sc : List (String × ℕ)) (k b : String) :
    valAt (bump sc k) b = valAt sc b + (if b = k then 1 else 0) := by
  induction sc with
  | nil =>
    by_cases h : k = b
    · subst h; simp [bump, valAt]
    · have h2 : ¬ b = k := fun hh => h hh.symm
      simp [bump, valAt, h, h2]
  | cons p rest ih =>
    obtain ⟨k', v⟩ := p
    by_cases hk : k' = k
    · subst hk
      by_cases hb : k' = b
      · subst hb; simp [bump, valAt]
      · have hb2 : ¬ b = k' := fun hh => hb hh.symm
        simp [bump, valAt, hb, hb2]
    · by_cases hb : k' = b
      · subst hb
        have hb2 : ¬ k' = k := hk
        have hb3 : ¬ k' = k := hk
        simp [bump, valAt, hk, fun hh : k' = k => hk hh]
      · simp [bump, valAt, hk, hb, ih]

theorem bucketCount_cons (i : String) (is : List String) (b : String) :
    bucketCount (i :: is) b =
      (if firstBucket i = some b then 1 else 0) + bucketCount is b := by
  by_cases h : firstBucket i = some b
  · simp only [bucketCount, List.filter_cons, h]
    simp
    omega
  · simp only [bucketCount, List.filter_cons, h]
    simp [h]

theorem valAt_foldl (inds : List String) (sc : List (String × ℕ)) (b : String) :
    valAt (inds.foldl classifyStep sc) b = valAt sc b + bucketCount inds b := by
  induction inds generalizing sc with
  | nil => simp [bucketCount]
  | cons i is ih =>
    rw [List.foldl_cons, ih, classifyStep_eq, bucketCount_cons]
    cases h : firstBucket i with
    | none => simp
    | some k =>
      rw [valAt_bump]
      by_cases hb : b = k
      · subst hb
        simp only [if_pos rfl]
        omega
      · have h1 : ¬ ((some k : Option String) = some b) :=
          fun hh => hb (Option.some.inj hh).symm
        simp only [if_neg h1, if_neg hb]
        omega

/-- The six bucket names, in priority order. -/
def bucketNames : List String := domainBuckets.map Prod.fst

theorem firstBucket_mem_names (i : String) (b : String)
    (h : firstBucket i = some b) : b ∈ bucketNames := by
  unfold firstBucket at h
  split_ifs at h <;> simp_all [bucketNames, domainBuckets]

theorem mem_keys_bump (sc : List (String × ℕ)) (k b : String) :
    b ∈ (bump sc k).map Prod.fst ↔ b ∈ sc.map Prod.fst ∨ b = k := by
  induction sc with
  | nil => simp [bump]
  | cons p rest ih =>
    obtain ⟨k', v⟩ := p
    simp only [bump]
    split_ifs with hk
    · subst hk; simp; tauto
    · simp [ih]; tauto

theorem nodup_keys_bump (sc : List (String × ℕ)) (k : String)
    (h : (sc.map Prod.fst).Nodup) : ((bump sc k).map Prod.fst).Nodup := by
  induction sc with
  | nil => simp [bump]
  | cons p rest ih =>
    obtain ⟨k', v⟩ := p
    simp only [List.map_cons, List.nodup_cons] at h
    simp only [bump]
    split_ifs with hk
    · subst hk; simp only [List.map_cons, List.nodup_cons]; exact h
    · simp only [List.map_cons, List.nodup_cons, mem_keys_bump]
      refine ⟨?_, ih h.2⟩
      rintro (hmem | rfl)
      · exact h.1 hmem
      · exact hk rfl

/-- Invariant of the scoring fold: keys are bucket names, without repeats. -/
theorem scores_invariant (inds : List String) (sc : List (String × ℕ))
    (hsub : ∀ b ∈ sc.map Prod.fst, b ∈ bucketNames)
    (hnd : (sc.map Prod.fst).Nodup) :
    (∀ b ∈ (inds.foldl classifyStep sc).map Prod.fst, b ∈ bucketNames) ∧
      ((inds.foldl classifyStep sc).map Prod.fst).Nodup := by
  induction inds generalizing sc with
  | nil => exact ⟨hsub, hnd⟩
  | cons i is ih =>
    rw [List.foldl_cons, classifyStep_eq]
    cases h : firstBucket i with
    | none => exact ih sc hsub hnd
    | some k =>
      refine ih (bump sc k) ?_ (nodup_keys_bump sc k hnd)
      intro b hb
      rcases (mem_keys_bump sc k b).mp hb with hmem | rfl
      · exact hsub b hmem
      · exact firstBucket_mem_names i b h

theorem valAt_pos_mem (sc : List (String × ℕ)) (b : String)
    (h : 0 < valAt sc b) : (b, valAt sc b) ∈ sc := by
  induction sc with
  | nil => simp [valAt] at h
  | cons p rest ih =>
    obtain ⟨k', v⟩ := p
    by_cases hk : k' = b
    · subst hk
      simp [valAt]
    · simp only [valAt, if_neg hk] at h ⊢
      exact List.mem_cons_of_mem _ (ih h)

theorem mem_nodup_valAt (sc : List (String × ℕ)) (b : String) (m : ℕ)
    (hnd : (sc.map Prod.fst).Nodup) (hmem : (b, m) ∈ sc) : valAt sc b = m := by
  induction sc with
  | nil => simp at hmem
  | cons p rest ih =>
    obtain ⟨k', v⟩ := p
    simp only [List.map_cons, List.nodup_cons] at hnd
    rcases List.mem_cons.mp hmem with heq | hmem'
    · injection heq with h1 h2
      subst h1; subst h2
      simp [valAt]
    · by_cases hk : k' = b
      · subst hk
        exact absurd (List.mem_map.mpr ⟨(k', m), hmem', rfl⟩) hnd.1
      · simp only [valAt, if_neg hk]
        exact ih hnd.2 hmem'

theorem maxEntry_go (l : List (String × ℕ)) (q : String × ℕ) :
    ∃ p, l.foldl (fun acc p =>
        match acc with
        | none => some p
        | some q => if p.2 > q.2 then some p else some q) (some q) = some p ∧
      (p = q ∨ p ∈ l) ∧ q.2 ≤ p.2 ∧ ∀ r ∈ l, r.2 ≤ p.2 := by
  induction l generalizing q with
  | nil => exact ⟨q, rfl, Or.inl rfl, le_refl _, by simp⟩
  | cons r l ih =>
    rw [List.foldl_cons]
    by_cases h : r.2 > q.2
    · simp only [if_pos h]
      obtain ⟨p, hfold, hmem, hle, hall⟩ := ih r
      refine ⟨p, hfold, ?_, le_of_lt (lt_of_lt_of_le h hle), ?_⟩
      · rcases hmem with rfl | hm
        · exact Or.inr (List.mem_cons_self _ _)
        · exact Or.inr (List.mem_cons_of_mem _ hm)
      · intro s hs
        rcases List.mem_cons.mp hs with rfl | hs'
        · exact hle
        · exact hall s hs'
    · simp only [if_neg h]
      obtain ⟨p, hfold, hmem, hle, hall⟩ := ih q
      refine ⟨p, hfold, ?_, hle, ?_⟩
      · rcases hmem with rfl | hm
        · exact Or.inl rfl
        · exact Or.inr (List.mem_cons_of_mem _ hm)
      · intro s hs
        rcases List.mem_cons.mp hs with rfl | hs'
        · exact le_trans (le_of_not_lt h) hle
        · exact hall s hs'

theorem maxEntry_spec (sc : List (String × ℕ)) (hne : sc ≠ []) :
    ∃ p, maxEntry sc = some p ∧ p ∈ sc ∧ ∀ r ∈ sc, r.2 ≤ p.2 := by
  cases sc with
  | nil => exact absurd rfl hne
  | cons q l =>
    unfold maxEntry
    rw [List.foldl_cons]
    obtain ⟨p, hfold, hmem, hle, hall⟩ := maxEntry_go l q
    refine ⟨p, hfold, ?_, ?_⟩
    · rcases hmem with rfl | hm
      · exact List.mem_cons_self _ _
      · exact List.mem_cons_of_mem _ hm
    · intro r hr
      rcases List.mem_cons.mp hr with rfl | hr'
      · exact hle
      · exact hall r hr'

theorem le_foldr_max (l : List ℕ) (x : ℕ) (h : x ∈ l) : x ≤ l.foldr max 0 := by
  induction l with
  | nil => simp at h
  | cons y l ih =>
    rcases List.mem_cons.mp h with rfl | h'
    · exact le_max_left _ _
    · exact le_trans (ih h') (le_max_right _ _)

theorem foldr_max_le (l : List ℕ) (m : ℕ) (h : ∀ x ∈ l, x ≤ m) :
    l.foldr max 0 ≤ m := by
  induction l with
  | nil => simp
  | cons y l ih =>
    exact max_le (h y (List.mem_cons_self _ _)) (ih fun x hx => h x (List.mem_cons_of_mem _ hx))

theorem scores_eq_nil_iff (inds : List String) (sc : List (String × ℕ)) :
    inds.foldl classifyStep sc = [] ↔ sc = [] ∧ ∀ i ∈ inds, firstBucket i = none := by
  induction inds generalizing sc with
  | nil => simp
  | cons i is ih =>
    rw [List.foldl_cons, classifyStep_eq, ih]
    cases h : firstBucket i with
    | none => simp [h]
    | some k =>
      simp only [h]
      constructor
      · rintro ⟨hnil, -⟩
        exact absurd hnil (bump_ne_nil sc k)
      · rintro ⟨-, hall⟩
        exact absurd (hall i (List.mem_cons_self _ _)) (by simp [h])

/-- Scores of the six buckets accumulated by `_classify_domain`'s loop. -/
def scoresOf (indicators : List String) : List (String × ℕ) :=
  indicators.foldl classifyStep []

theorem valAt_scoresOf (indicators : List String) (b : String) :
    valAt (scoresOf indicators) b = bucketCount indicators b := by
  rw [scoresOf, valAt_foldl, valAt_nil, Nat.zero_add]

theorem scoresOf_keys (indicators : List String) :
    (∀ b ∈ (scoresOf indicators).map Prod.fst, b ∈ bucketNames) ∧
      ((scoresOf indicators).map Prod.fst).Nodup := by
  exact scores_invariant indicators [] (by simp) (by simp)

theorem bucketCount_le_maxCount (indicators : List String) (b : String)
    (hb : b ∈ bucketNames) : bucketCount indicators b ≤ maxCount indicators := by
  apply le_foldr_max
  rcases List.mem_map.mp hb with ⟨p, hp, rfl⟩
  exact List.mem_map.mpr ⟨p, hp, rfl⟩

theorem maxEntry_scoresOf (indicators : List String)
    (hne : scoresOf indicators ≠ []) :
    ∃ b, maxEntry (scoresOf indicators) = some (b, maxCount indicators) ∧
      bucketCount indicators b = maxCount indicators := by
  obtain ⟨⟨b, m⟩, hmax, hmem, hall⟩ := maxEntry_spec (scoresOf indicators) hne
  obtain ⟨hsub, hnd⟩ := scoresOf_keys indicators
  have hval : valAt (scoresOf indicators) b = m := mem_nodup_valAt _ _ _ hnd hmem
  have hcount : bucketCount indicators b = m := by
    rw [← valAt_scoresOf, hval]
  have hble : m ≤ maxCount indicators := by
    rw [← hcount]
    exact bucketCount_le_maxCount indicators b
      (hsub b (List.mem_map.mpr ⟨(b, m), hmem, rfl⟩))
  have hgle : maxCount indicators ≤ m := by
    apply foldr_max_le
    intro x hx
    rcases List.mem_map.mp hx with ⟨p, hp, rfl⟩
    by_cases hzero : bucketCount indicators p.1 = 0
    · omega
    · have hpos : 0 < valAt (scoresOf indicators) p.1 := by
        rw [valAt_scoresOf]; omega
      have hmem' := valAt_pos_mem _ _ hpos
      have := hall _ hmem'
      simp only at this
      rw [← valAt_scoresOf]
      exact this
  have : m = maxCount indicators := le_antisymm hble hgle
  subst this
  exact ⟨b, hmax, hcount⟩

/-- C2: the domain classifier tests each indicator against the six keyword
buckets in the fixed priority order (healthcare, finance, manufacturing,
retail, education, technology) and gives the point to the first matching
bucket only (`valAt (scoresOf inds) b = bucketCount inds b`, where
`bucketCount` counts indicators whose *first* matching bucket is `b`); the
returned confidence equals `min(0.9, 0.5 + 0.2 * maxScore)` for the winning
bucket's count `maxScore`; an empty indicator list yields
`("general", 0.1)` and a non-empty list matching no bucket yields
`("general", 0.2)`.  Confidences are embedded in twentieths:
`confQ 2 = 0.1`, `confQ 4 = 0.2`. -/
theorem C2_classify_domain (inds : List String) :
    (inds = [] → classifyDomain inds = ("general", 2)) ∧
    (inds ≠ [] → (∀ i ∈ inds, firstBucket i = none) →
      classifyDomain inds = ("general", 4)) ∧
    ((∃ i ∈ inds, (firstBucket i).isSome) →
      confQ (classifyDomain inds).2 =
        min (9/10 : ℚ) (1/2 + (maxCount inds : ℚ) * (1/5)) ∧
      bucketCount inds (classifyDomain inds).1 = maxCount inds) ∧
    (∀ b, valAt (scoresOf inds) b = bucketCount inds b) ∧
    confQ 2 = 1/10 ∧ confQ 4 = 1/5 := by
  refine ⟨?_, ?_, ?_, valAt_scoresOf inds, by norm_num [confQ], by norm_num [confQ]⟩
  · rintro rfl
    simp [classifyDomain]
  · intro hne hall
    have hnil : scoresOf inds = [] := (scores_eq_nil_iff inds []).mpr ⟨rfl, hall⟩
    unfold classifyDomain
    rw [if_neg (by simpa using hne)]
    rw [show inds.foldl classifyStep [] = scoresOf inds from rfl, hnil]
    rfl
  · rintro ⟨i, hi, hsome⟩
    have hne : inds ≠ [] := by rintro rfl; simp at hi
    have hnil : scoresOf inds ≠ [] := by
      intro hcontra
      have := ((scores_eq_nil_iff inds []).mp hcontra).2 i hi
      rw [this] at hsome
      simp at hsome
    obtain ⟨b, hmax, hcount⟩ := maxEntry_scoresOf inds hnil
    have hclass : classifyDomain inds = (b, min 18 (10 + maxCount inds * 4)) := by
      unfold classifyDomain
      rw [if_neg (by simpa using hne)]
      rw [show inds.foldl classifyStep [] = scoresOf inds from rfl, hmax]
    rw [hclass]
    refine ⟨?_, hcount⟩
    show confQ (min 18 (10 + maxCount inds * 4)) = _
    unfold confQ
    push_cast
    rw [← min_div_div_right (by norm_num : (0:ℚ) ≤ 20)]
    ring_nf

/-! ## Enhancement pass and the confidence produced by `analyze_user_context`
(`_enhance_domain_detection` and steps 2-3 of `analyze_user_context`). -/

/-- `DomainDiscoveryEngine._enhance_domain_detection`: re-runs the classifier
and adds 0.1 (2 twentieths), capped at 0.95 (19), when more than 3
indicators are present. -/
def enhanceDomainDetection (indicators : List String) : String × ℕ :=
  let dc := classifyDomain indicators
  if indicators.length > 3 then (dc.1, min 19 (dc.2 + 2)) else dc

/-- Steps 2-3 of `analyze_user_context`: classify, then — when indicators
exist and confidence is below 0.8 (16 twentieths) — run the enhancement and
adopt its result only when its confidence is strictly higher. -/
def analyzeClassification (indicators : List String) : String × ℕ :=
  let dc := classifyDomain indicators
  if indicators.isEmpty = false ∧ dc.2 < 16 then
    let edc := enhanceDomainDetection indicators
    if edc.2 > dc.2 then edc else dc
  else dc

/-- The confidence field of the context `analyze_user_context` builds. -/
def analyzeConfidence (indicators : List String) : ℕ :=
  (analyzeClassification indicators).2

theorem classifyDomain_of_scores_nil (inds : List String) (hne : inds ≠ [])
    (hnil : scoresOf inds = []) : classifyDomain inds = ("general", 4) := by
  unfold classifyDomain
  rw [if_neg (by simpa using hne)]
  rw [show inds.foldl classifyStep [] = scoresOf inds from rfl, hnil]
  rfl

theorem classifyDomain_of_scores_ne_nil (inds : List String)
    (hne : scoresOf inds ≠ []) :
    ∃ b, classifyDomain inds = (b, min 18 (10 + maxCount inds * 4)) ∧
      bucketCount inds b = maxCount inds := by
  have hinds : inds ≠ [] := by
    rintro rfl
    exact hne rfl
  obtain ⟨b, hmax, hcount⟩ := maxEntry_scoresOf inds hne
  refine ⟨b, ?_, hcount⟩
  unfold classifyDomain
  rw [if_neg (by simpa using hinds)]
  rw [show inds.foldl classifyStep [] = scoresOf inds from rfl, hmax]

theorem one_le_maxCount (inds : List String) (hne : scoresOf inds ≠ []) :
    1 ≤ maxCount inds := by
  have : ¬ ∀ i ∈ inds, firstBucket i = none := by
    intro hall
    exact hne ((scores_eq_nil_iff inds []).mpr ⟨rfl, hall⟩)
  push_neg at this
  obtain ⟨i, hi, hsome⟩ := this
  obtain ⟨b, hb⟩ := Option.ne_none_iff_exists'.mp hsome
  have hpos : 1 ≤ bucketCount inds b := by
    have : i ∈ inds.filter (fun j => firstBucket j = some b) :=
      List.mem_filter.mpr ⟨hi, by simp [hb]⟩
    have := List.length_pos.mpr (List.ne_nil_of_mem this)
    unfold bucketCount
    omega
  exact le_trans hpos (bucketCount_le_maxCount inds b (firstBucket_mem_names i b hb))

theorem classify_conf_cases (inds : List String) :
    (classifyDomain inds).2 = 2 ∨ (classifyDomain inds).2 = 4 ∨
    (classifyDomain inds).2 = 14 ∨ (classifyDomain inds).2 = 18 := by
  by_cases hinds : inds = []
  · subst hinds
    simp [classifyDomain]
  · by_cases hnil : scoresOf inds = []
    · rw [classifyDomain_of_scores_nil inds hinds hnil]
      simp
    · obtain ⟨b, hclass, -⟩ := classifyDomain_of_scores_ne_nil inds hnil
      have hm := one_le_maxCount inds hnil
      rw [hclass]
      simp only
      omega

theorem bucketCount_append (l1 l2 : List String) (b : String) :
    bucketCount (l1 ++ l2) b = bucketCount l1 b + bucketCount l2 b := by
  simp [bucketCount, List.filter_append]

theorem maxCount_append_ge (l1 l2 : List String) :
    maxCount l1 ≤ maxCount (l1 ++ l2) := by
  apply foldr_max_le
  intro x hx
  rcases List.mem_map.mp hx with ⟨p, hp, rfl⟩
  calc bucketCount l1 p.1 ≤ bucketCount (l1 ++ l2) p.1 := by
        rw [bucketCount_append]; omega
    _ ≤ maxCount (l1 ++ l2) :=
        bucketCount_le_maxCount _ _ (List.mem_map.mpr ⟨p, hp, rfl⟩)

theorem scoresOf_append_ne_nil (l1 l2 : List String)
    (hne : scoresOf l1 ≠ []) : scoresOf (l1 ++ l2) ≠ [] := by
  intro hcontra
  obtain ⟨-, hall⟩ := (scores_eq_nil_iff (l1 ++ l2) []).mp hcontra
  apply hne
  exact (scores_eq_nil_iff l1 []).mpr
    ⟨rfl, fun i hi => hall i (List.mem_append_left l2 hi)⟩

theorem classify_conf_mono (I I' : List String) :
    (classifyDomain I).2 ≤ (classifyDomain (I ++ I')).2 := by
  by_cases hI : I = []
  · subst hI
    have h1 : (classifyDomain ([] : List String)).2 = 2 := by simp [classifyDomain]
    rcases classify_conf_cases I' with h | h | h | h <;> simp only [List.nil_append] <;> omega
  · by_cases hnil : scoresOf I = []
    · rw [classifyDomain_of_scores_nil I hI hnil]
      rcases classify_conf_cases (I ++ I') with h | h | h | h
      · exfalso
        have hIne : I ++ I' ≠ [] := by simp [hI]
        by_cases hnil2 : scoresOf (I ++ I') = []
        · rw [classifyDomain_of_scores_nil _ hIne hnil2] at h
          simp at h
        · obtain ⟨b, hclass, -⟩ := classifyDomain_of_scores_ne_nil _ hnil2
          have := one_le_maxCount _ hnil2
          rw [hclass] at h
          simp only at h
          omega
      all_goals omega
    · obtain ⟨b1, hc1, -⟩ := classifyDomain_of_scores_ne_nil I hnil
      obtain ⟨b2, hc2, -⟩ :=
        classifyDomain_of_scores_ne_nil (I ++ I') (scoresOf_append_ne_nil I I' hnil)
      have := maxCount_append_ge I I'
      rw [hc1, hc2]
      simp only
      omega

theorem analyzeConfidence_eq (inds : List String) :
    analyzeConfidence inds =
      if inds ≠ [] ∧ (classifyDomain inds).2 < 16 ∧ inds.length > 3
      then min 19 ((classifyDomain inds).2 + 2)
      else (classifyDomain inds).2 := by
  unfold analyzeConfidence analyzeClassification enhanceDomainDetection
  rcases classify_conf_cases inds with h | h | h | h <;>
    cases inds with
    | nil => simp [classifyDomain]
    | cons x xs =>
      by_cases hlen : (x :: xs).length > 3 <;>
        simp only [List.isEmpty_cons, h, hlen] <;>
        simp_all <;> omega

theorem confQ_mono {a b : ℕ} (h : a ≤ b) : confQ a ≤ confQ b := by
  unfold confQ
  have hq : (a : ℚ) ≤ b := by exact_mod_cast h
  linarith

/-- C5: extending an indicator set with indicators corroborating the winning
bucket never decreases the confidence produced by classification including
the enhancement pass (which may add 0.1, capped at 0.95, when more than 3
indicators are present); the pre-enhancement confidence never exceeds 0.9
and the enhanced confidence never exceeds 0.95.  (Confidences in
twentieths; `confQ` maps them to the source's decimal values.) -/
theorem C5_confidence_monotone (I I' : List String)
    (hcorr : ∀ x ∈ I', firstBucket x = some (classifyDomain I).1) :
    confQ (analyzeConfidence I) ≤ confQ (analyzeConfidence (I ++ I')) ∧
    confQ (classifyDomain (I ++ I')).2 ≤ 9/10 ∧
    confQ (analyzeConfidence (I ++ I')) ≤ 19/20 := by
  have hc := classify_conf_mono I I'
  have hcases1 := classify_conf_cases I
  have hcases2 := classify_conf_cases (I ++ I')
  have hlen : I.length ≤ (I ++ I').length := by simp
  have hne : I ≠ [] → I ++ I' ≠ [] := by
    intro h hcontra
    rcases List.append_eq_nil.mp hcontra with ⟨h1, -⟩
    exact h h1
  have ha1 := analyzeConfidence_eq I
  have ha2 := analyzeConfidence_eq (I ++ I')
  have hmono : analyzeConfidence I ≤ analyzeConfidence (I ++ I') := by
    rw [ha1, ha2]
    by_cases hb1 : I ≠ [] ∧ (classifyDomain I).2 < 16 ∧ I.length > 3
    · rw [if_pos hb1]
      by_cases hb2 : I ++ I' ≠ [] ∧ (classifyDomain (I ++ I')).2 < 16 ∧
          (I ++ I').length > 3
      · rw [if_pos hb2]
        omega
      · rw [if_neg hb2]
        have h1 := hne hb1.1
        have h2 : I.length > 3 := hb1.2.2
        have : ¬ ((classifyDomain (I ++ I')).2 < 16) := by
          intro hlt
          exact hb2 ⟨h1, hlt, by omega⟩
        omega
    · rw [if_neg hb1]
      split_ifs with hb2
      · omega
      · omega
  refine ⟨confQ_mono hmono, ?_, ?_⟩
  · have : (classifyDomain (I ++ I')).2 ≤ 18 := by omega
    calc confQ (classifyDomain (I ++ I')).2 ≤ confQ 18 := confQ_mono this
      _ = 9/10 := by norm_num [confQ]
  · have : analyzeConfidence (I ++ I') ≤ 19 := by
      rw [ha2]
      split_ifs <;> omega
    calc confQ (analyzeConfidence (I ++ I')) ≤ confQ 19 := confQ_mono this
      _ = 19/20 := by norm_num [confQ]

/-- Witness for C5 at a concrete corroborating extension. -/
theorem C5_confidence_monotone_witness :
    confQ (analyzeConfidence ["healthcare"]) ≤
      confQ (analyzeConfidence (["healthcare"] ++ ["medical"])) :=
  (C5_confidence_monotone ["healthcare"] ["medical"] (by decide)).1

/-! ## JSON values and the conversation state (`state_manager.py`)

`StateManager._state` is a Python dict from string keys to JSON-serializable
values; it is embedded as an insertion-ordered association list over a JSON
value type.  `json.dumps`/`json.loads` round-trip such values exactly, so
`to_json` is the identity at this level and a decode failure of
`json.loads` is the `Except.error` case of `from_json`'s input. -/

inductive JVal where
  | null : JVal
  | bool (b : Bool) : JVal
  | num (n : ℤ) : JVal
  | str (s : String) : JVal
  | arr (l : List JVal) : JVal
  | obj (l : List (String × JVal)) : JVal

/-- Python dict assignment `d[k] = v`: replace in place, else append. -/
def setKey : List (String × JVal) → String → JVal → List (String × JVal)
  | [], k, v => [(k, v)]
  | (k', v') :: rest, k, v =>
    if k' = k then (k', v) :: rest else (k', v') :: setKey rest k v

/-- Python dict lookup `d.get(k)`. -/
def getKey : List (String × JVal) → String → Option JVal
  | [], _ => none
  | (k', v') :: rest, k => if k' = k then some v' else getKey rest k

/-- Python `d.update(o)`: assign each of `o`'s entries in order. -/
def updateObj (s : List (String × JVal)) (o : List (String × JVal)) :
    List (String × JVal) :=
  o.foldl (fun acc p => setKey acc p.1 p.2) s

/-- `StateManager.__init__`: the default state record, in source key order.
`t` is the ISO-8601 rendering of the construction time. -/
def initState (t : String) : List (String × JVal) :=
  [("is_first_interaction", .bool true),
   ("selected_workflow_category", .null),
   ("conversation_history", .arr []),
   ("current_workflow_stage", .str "framing"),
   ("user_goal", .null),
   ("gathered_requirements", .obj []),
   ("research_findings", .obj []),
   ("decision_history", .arr []),
   ("langflow_graph_state", .obj []),
   ("created_at", .str t),
   ("updated_at", .str t),
   ("inquiry_focus_area", .null),
   ("extracted_concepts", .arr []),
   ("question_history", .arr []),
   ("conversation_depth", .num 0),
   ("last_parsed_response", .obj [])]

/-- `StateManager._update_timestamp`. -/
def touchState (s : List (String × JVal)) (t : String) : List (String × JVal) :=
  setKey s "updated_at" (.str t)

/-- Apply `f` to the value stored at `k` (Python reads the value, mutates
it and the mutation is visible through the dict). -/
def modifyVal (s : List (String × JVal)) (k : String) (f : JVal → JVal) :
    List (String × JVal) :=
  match getKey s k with
  | some v => setKey s k (f v)
  | none => s

/-- Append to the list stored at `k` (`self._state[k].append(x)`). -/
def appendArr (s : List (String × JVal)) (k : String) (x : JVal) :
    List (String × JVal) :=
  modifyVal s k (fun v => match v with | .arr l => .arr (l ++ [x]) | other => other)

def markFirstInteractionComplete (s : List (String × JVal)) (t : String) :
    List (String × JVal) :=
  touchState (setKey s "is_first_interaction" (.bool false)) t

def setWorkflowCategory (s : List (String × JVal)) (category t : String) :
    List (String × JVal) :=
  touchState (setKey s "selected_workflow_category" (.str category)) t

def addConversationEntry (s : List (String × JVal)) (role message t : String) :
    List (String × JVal) :=
  touchState (appendArr s "conversation_history"
    (.obj [("role", .str role), ("message", .str message), ("timestamp", .str t)])) t

def setWorkflowStage (s : List (String × JVal)) (stage t : String) :
    List (String × JVal) :=
  touchState (setKey s "current_workflow_stage" (.str stage)) t

def setUserGoal (s : List (String × JVal)) (goal t : String) :
    List (String × JVal) :=
  touchState (setKey s "user_goal" (.str goal)) t

def updateRequirements (s : List (String × JVal))
    (requirements : List (String × JVal)) (t : String) : List (String × JVal) :=
  touchState (modifyVal s "gathered_requirements"
    (fun v => match v with | .obj o => .obj (updateObj o requirements) | other => other)) t

def addResearchFinding (s : List (String × JVal)) (key : String) (data : JVal)
    (t : String) : List (String × JVal) :=
  touchState (modifyVal s "research_findings"
    (fun v => match v with | .obj o => .obj (setKey o key data) | other => other)) t

def addDecision (s : List (String × JVal)) (decision reasoning t : String) :
    List (String × JVal) :=
  touchState (appendArr s "decision_history"
    (.obj [("decision", .str decision), ("reasoning", .str reasoning),
           ("timestamp", .str t)])) t

def updateLangflowGraphState (s : List (String × JVal))
    (graphData : List (String × JVal)) (t : String) : List (String × JVal) :=
  touchState (modifyVal s "langflow_graph_state"
    (fun v => match v with | .obj o => .obj (updateObj o graphData) | other => other)) t

def setInquiryFocusArea (s : List (String × JVal)) (focusArea t : String) :
    List (String × JVal) :=
  touchState (setKey s "inquiry_focus_area" (.str focusArea)) t

/-- Python `concept not in existing` where `existing` holds JSON values:
`==` between a string and a non-string is `False`. -/
def jstrMem (l : List JVal) (c : String) : Bool :=
  l.any (fun v => match v with | .str s => s = c | _ => false)

def addExtractedConcepts (s : List (String × JVal)) (concepts : List String)
    (t : String) : List (String × JVal) :=
  let existing := match getKey s "extracted_concepts" with
    | some (.arr l) => l
    | _ => []
  let merged := concepts.foldl
    (fun acc c => if jstrMem acc c then acc else acc ++ [JVal.str c]) existing
  touchState (setKey s "extracted_concepts" (.arr merged)) t

def addQuestionToHistory (s : List (String × JVal)) (questionData : JVal)
    (t : String) : List (String × JVal) :=
  touchState (appendArr s "question_history" questionData) t

def incrementConversationDepth (s : List (String × JVal)) (t : String) :
    List (String × JVal) :=
  let d : ℤ := match getKey s "conversation_depth" with
    | some (.num n) => n
    | _ => 0
  touchState (setKey s "conversation_depth" (.num (d + 1))) t

def setLastParsedResponse (s : List (String × JVal)) (parsed : JVal)
    (t : String) : List (String × JVal) :=
  touchState (setKey s "last_parsed_response" parsed) t

/-- `StateManager.to_json`: `json.dumps` of the state dict.  At the JSON
value level the serialized form is the state object itself. -/
def toJsonObj (s : List (String × JVal)) : List (String × JVal) := s

/-- `StateManager.from_json`: the input is the outcome of `json.loads` on
the given string (`Except.error` = `json.JSONDecodeError`).  On failure a
`ValueError` (the spec's `FormatError`) is raised and the state is left
as it was; on success the loaded object is merged by `dict.update` and the
timestamp refreshed.  Returns the state after the call and the raised
error, if any. -/
def fromJson (s : List (String × JVal))
    (input : Except String (List (String × JVal))) (t : String) :
    List (String × JVal) × Option String :=
  match input with
  | .error e => (s, some ("Invalid JSON format: " ++ e))
  | .ok o => (touchState (updateObj s o) t, none)

/-- The conversation states reachable through `StateManager`'s interface
(construction, every mutator, successful imports). -/
inductive ReachableState : List (String × JVal) → Prop where
  | init (t : String) : ReachableState (initState t)
  | markFirst (s : List (String × JVal)) (t : String) :
      ReachableState s → ReachableState (markFirstInteractionComplete s t)
  | setCategory (s : List (String × JVal)) (category t : String) :
      ReachableState s → ReachableState (setWorkflowCategory s category t)
  | addEntry (s : List (String × JVal)) (role message t : String) :
      ReachableState s → ReachableState (addConversationEntry s role message t)
  | setStage (s : List (String × JVal)) (stage t : String) :
      ReachableState s → ReachableState (setWorkflowStage s stage t)
  | setGoal (s : List (String × JVal)) (goal t : String) :
      ReachableState s → ReachableState (setUserGoal s goal t)
  | updateReqs (s : List (String × JVal)) (requirements : List (String × JVal))
      (t : String) : ReachableState s → ReachableState (updateRequirements s requirements t)
  | addResearch (s : List (String × JVal)) (key : String) (data : JVal) (t : String) :
      ReachableState s → ReachableState (addResearchFinding s key data t)
  | addDec (s : List (String × JVal)) (decision reasoning t : String) :
      ReachableState s → ReachableState (addDecision s decision reasoning t)
  | updateGraph (s : List (String × JVal)) (graphData : List (String × JVal))
      (t : String) : ReachableState s → ReachableState (updateLangflowGraphState s graphData t)
  | setFocus (s : List (String × JVal)) (focusArea t : String) :
      ReachableState s → ReachableState (setInquiryFocusArea s focusArea t)
  | addConcepts (s : List (String × JVal)) (concepts : List String) (t : String) :
      ReachableState s → ReachableState (addExtractedConcepts s concepts t)
  | addQuestion (s : List (String × JVal)) (questionData : JVal) (t : String) :
      ReachableState s → ReachableState (addQuestionToHistory s questionData t)
  | incDepth (s : List (String × JVal)) (t : String) :
      ReachableState s → ReachableState (incrementConversationDepth s t)
  | setParsed (s : List (String × JVal)) (parsed : JVal) (t : String) :
      ReachableState s → ReachableState (setLastParsedResponse s parsed t)
  | importOk (s : List (String × JVal)) (o : List (String × JVal)) (t : String) :
      ReachableState s → ReachableState (fromJson s (.ok o) t).1

/-! ### State-manager lemmas -/

theorem getKey_setKey_self (s : List (String × JVal)) (k : String) (v : JVal) :
    getKey (setKey s k v) k = some v := by
  induction s with
  | nil => simp [setKey, getKey]
  | cons p rest ih =>
    obtain ⟨k', v'⟩ := p
    by_cases h : k' = k
    · subst h; simp [setKey, getKey]
    · simp [setKey, getKey, h, ih]

theorem getKey_setKey_ne (s : List (String × JVal)) (k : String) (v : JVal)
    (k' : String) (h : k' ≠ k) : getKey (setKey s k v) k' = getKey s k' := by
  have h2 : ¬ (k = k') := fun hh => h hh.symm
  induction s with
  | nil => simp [setKey, getKey, h2]
  | cons p rest ih =>
    obtain ⟨k0, v0⟩ := p
    by_cases h0 : k0 = k
    · subst h0
      simp [setKey, getKey, h2]
    · by_cases h1 : k0 = k'
      · subst h1; simp [setKey, getKey, h0]
      · simp [setKey, getKey, h0, h1, ih]

theorem mem_keys_setKey (s : List (String × JVal)) (k b : String) (v : JVal) :
    b ∈ (setKey s k v).map Prod.fst ↔ b ∈ s.map Prod.fst ∨ b = k := by
  induction s with
  | nil => simp [setKey]
  | cons p rest ih =>
    obtain ⟨k', v'⟩ := p
    by_cases h : k' = k
    · subst h; simp [setKey]; tauto
    · simp [setKey, h, ih]; tauto

theorem nodup_keys_setKey (s : List (String × JVal)) (k : String) (v : JVal)
    (h : (s.map Prod.fst).Nodup) : ((setKey s k v).map Prod.fst).Nodup := by
  induction s with
  | nil => simp [setKey]
  | cons p rest ih =>
    obtain ⟨k', v'⟩ := p
    simp only [List.map_cons, List.nodup_cons] at h
    by_cases hk : k' = k
    · subst hk
      simpa [setKey] using h
    · simp only [setKey, if_neg hk, List.map_cons, List.nodup_cons, mem_keys_setKey]
      refine ⟨?_, ih h.2⟩
      rintro (hmem | rfl)
      · exact h.1 hmem
      · exact hk rfl

theorem nodup_keys_modifyVal (s : List (String × JVal)) (k : String)
    (f : JVal → JVal) (h : (s.map Prod.fst).Nodup) :
    ((modifyVal s k f).map Prod.fst).Nodup := by
  unfold modifyVal
  cases getKey s k with
  | none => exact h
  | some v => exact nodup_keys_setKey s k (f v) h

theorem nodup_keys_updateObj (o s : List (String × JVal))
    (h : (s.map Prod.fst).Nodup) : ((updateObj s o).map Prod.fst).Nodup := by
  induction o generalizing s with
  | nil => exact h
  | cons p rest ih =>
    exact ih (setKey s p.1 p.2) (nodup_keys_setKey s p.1 p.2 h)

theorem setKey_mem_self (s : List (String × JVal)) (k : String) (v : JVal)
    (hnd : (s.map Prod.fst).Nodup) (hmem : (k, v) ∈ s) : setKey s k v = s := by
  induction s with
  | nil => simp at hmem
  | cons p rest ih =>
    obtain ⟨k', v'⟩ := p
    simp only [List.map_cons, List.nodup_cons] at hnd
    rcases List.mem_cons.mp hmem with heq | hmem'
    · injection heq with h1 h2
      subst h1; subst h2
      simp [setKey]
    · by_cases hk : k' = k
      · subst hk
        exact absurd (List.mem_map.mpr ⟨(k', v), hmem', rfl⟩) hnd.1
      · simp [setKey, hk, ih hnd.2 hmem']

theorem foldl_setKey_self (l s : List (String × JVal))
    (hsub : ∀ p ∈ l, p ∈ s) (hnd : (s.map Prod.fst).Nodup) :
    l.foldl (fun acc p => setKey acc p.1 p.2) s = s := by
  induction l with
  | nil => rfl
  | cons p rest ih =>
    rw [List.foldl_cons]
    have hp : p ∈ s := hsub p (List.mem_cons_self _ _)
    rw [setKey_mem_self s p.1 p.2 hnd hp]
    exact ih fun q hq => hsub q (List.mem_cons_of_mem _ hq)

theorem updateObj_self (s : List (String × JVal))
    (hnd : (s.map Prod.fst).Nodup) : updateObj s s = s :=
  foldl_setKey_self s s (fun _ hp => hp) hnd

theorem getKey_updateObj_not_mem (o s : List (String × JVal)) (k : String)
    (h : k ∉ o.map Prod.fst) : getKey (updateObj s o) k = getKey s k := by
  induction o generalizing s with
  | nil => rfl
  | cons p rest ih =>
    simp only [List.map_cons, List.mem_cons] at h
    push_neg at h
    show getKey (updateObj (setKey s p.1 p.2) rest) k = getKey s k
    rw [ih (setKey s p.1 p.2) h.2, getKey_setKey_ne s p.1 p.2 k h.1]

theorem reachable_nodup (s : List (String × JVal)) (h : ReachableState s) :
    (s.map Prod.fst).Nodup := by
  induction h with
  | init t =>
    have hkeys : (initState t).map Prod.fst =
        ["is_first_interaction", "selected_workflow_category",
         "conversation_history", "current_workflow_stage", "user_goal",
         "gathered_requirements", "research_findings", "decision_history",
         "langflow_graph_state", "created_at", "updated_at",
         "inquiry_focus_area", "extracted_concepts", "question_history",
         "conversation_depth", "last_parsed_response"] := rfl
    rw [hkeys]
    decide
  | markFirst s t _ ih => exact nodup_keys_setKey _ _ _ (nodup_keys_setKey _ _ _ ih)
  | setCategory s category t _ ih =>
    exact nodup_keys_setKey _ _ _ (nodup_keys_setKey _ _ _ ih)
  | addEntry s role message t _ ih =>
    exact nodup_keys_setKey _ _ _ (nodup_keys_modifyVal _ _ _ ih)
  | setStage s stage t _ ih =>
    exact nodup_keys_setKey _ _ _ (nodup_keys_setKey _ _ _ ih)
  | setGoal s goal t _ ih =>
    exact nodup_keys_setKey _ _ _ (nodup_keys_setKey _ _ _ ih)
  | updateReqs s requirements t _ ih =>
    exact nodup_keys_setKey _ _ _ (nodup_keys_modifyVal _ _ _ ih)
  | addResearch s key data t _ ih =>
    exact nodup_keys_setKey _ _ _ (nodup_keys_modifyVal _ _ _ ih)
  | addDec s decision reasoning t _ ih =>
    exact nodup_keys_setKey _ _ _ (nodup_keys_modifyVal _ _ _ ih)
  | updateGraph s graphData t _ ih =>
    exact nodup_keys_setKey _ _ _ (nodup_keys_modifyVal _ _ _ ih)
  | setFocus s focusArea t _ ih =>
    exact nodup_keys_setKey _ _ _ (nodup_keys_setKey _ _ _ ih)
  | addConcepts s concepts t _ ih =>
    exact nodup_keys_setKey _ _ _ (nodup_keys_setKey _ _ _ ih)
  | addQuestion s questionData t _ ih =>
    exact nodup_keys_setKey _ _ _ (nodup_keys_modifyVal _ _ _ ih)
  | incDepth s t _ ih =>
    exact nodup_keys_setKey _ _ _ (nodup_keys_setKey _ _ _ ih)
  | setParsed s parsed t _ ih =>
    exact nodup_keys_setKey _ _ _ (nodup_keys_setKey _ _ _ ih)
  | importOk s o t _ ih =>
    exact nodup_keys_setKey _ _ _ (nodup_keys_updateObj _ _ ih)

/-- C1 (amended): importing the export of a reachable state restores every
field except `updated_at`, which is refreshed to the import-time timestamp
`t` (by `from_json`'s trailing `_update_timestamp()` call); the import
itself succeeds. -/
theorem C1_round_trip_refreshes_updated_at (s : List (String × JVal))
    (t : String) (h : ReachableState s) :
    (fromJson s (.ok (toJsonObj s)) t).1 = touchState s t ∧
    (∀ k, k ≠ "updated_at" →
      getKey (fromJson s (.ok (toJsonObj s)) t).1 k = getKey s k) ∧
    getKey (fromJson s (.ok (toJsonObj s)) t).1 "updated_at" = some (.str t) ∧
    (fromJson s (.ok (toJsonObj s)) t).2 = none := by
  have hnd := reachable_nodup s h
  have heq : (fromJson s (.ok (toJsonObj s)) t).1 = touchState s t := by
    show touchState (updateObj s s) t = touchState s t
    rw [updateObj_self s hnd]
  refine ⟨heq, ?_, ?_, rfl⟩
  · intro k hk
    rw [heq]
    exact getKey_setKey_ne s "updated_at" (.str t) k hk
  · rw [heq]
    exact getKey_setKey_self s "updated_at" (.str t)

/-- Witness for C1's amended round-trip law at the freshly constructed
state, imported at a later timestamp. -/
theorem C1_round_trip_witness :
    (fromJson (initState "T0") (.ok (toJsonObj (initState "T0"))) "T1").1 =
      touchState (initState "T0") "T1" :=
  (C1_round_trip_refreshes_updated_at (initState "T0") "T1"
    (ReachableState.init "T0")).1

/-- Counterexample to C1 as stated: the reachable state constructed at
ISO time "T0", exported and re-imported at time "T1", does not come back
field-for-field — its `updated_at` field changes from "T0" to "T1". -/
theorem C1_counterexample :
    getKey (fromJson (initState "T0") (.ok (toJsonObj (initState "T0"))) "T1").1
        "updated_at" = some (.str "T1") ∧
    getKey (initState "T0") "updated_at" = some (.str "T0") ∧
    (fromJson (initState "T0") (.ok (toJsonObj (initState "T0"))) "T1").1 ≠
      initState "T0" := by
  refine ⟨rfl, rfl, ?_⟩
  intro hcontra
  have h1 := congrArg (fun s => getKey s "updated_at") hcontra
  have h2 : some (JVal.str "T1") = some (JVal.str "T0") := h1
  simp at h2

/-- C9: when the import string fails to decode, `from_json` raises the
format `ValueError` and leaves every field of the prior state unchanged
(including `updated_at`); when decoding succeeds no error is raised and
every field absent from the decoded object — other than `updated_at`,
which is refreshed to the import time — retains its prior value. -/
theorem C9_from_json_error_handling (s : List (String × JVal)) (e : String)
    (o : List (String × JVal)) (t : String) :
    ((fromJson s (.error e) t).1 = s ∧
      (fromJson s (.error e) t).2 = some ("Invalid JSON format: " ++ e)) ∧
    (fromJson s (.ok o) t).2 = none ∧
    (∀ k, k ∉ o.map Prod.fst → k ≠ "updated_at" →
      getKey (fromJson s (.ok o) t).1 k = getKey s k) ∧
    getKey (fromJson s (.ok o) t).1 "updated_at" = some (.str t) := by
  refine ⟨⟨rfl, rfl⟩, rfl, ?_, ?_⟩
  · intro k hk hk2
    show getKey (touchState (updateObj s o) t) k = getKey s k
    rw [touchState, getKey_setKey_ne _ _ _ k hk2]
    exact getKey_updateObj_not_mem o s k hk
  · exact getKey_setKey_self _ _ _

/-- Counterexample to C9 as stated: importing the successfully-decoded
empty object at time "T1" changes `updated_at` (a field absent from the
input) away from its prior value "T0", so not every absent field retains
its current value. -/
theorem C9_counterexample :
    getKey (fromJson (initState "T0") (.ok []) "T1").1 "updated_at" =
      some (.str "T1") ∧
    getKey (initState "T0") "updated_at" = some (.str "T0") ∧
    "updated_at" ∉ (([] : List (String × JVal)).map Prod.fst) := by
  exact ⟨rfl, rfl, by simp⟩

/-! ## Dialogue controller (`controller.py`): category selection in FRAMING -/

/-- `SocraticController.WORKFLOW_CATEGORIES`. -/
def workflowCategories : List String :=
  ["chatbot", "data analysis", "RAG workflow", "content generation"]

/-- `SocraticController._parse_category_selection`: strip + lower the input;
an all-digit token selects positionally (1-indexed, falling through when out
of range); otherwise the first category matching by case-insensitive
substring in either direction. -/
def parseCategorySelection (input : String) : Option String :=
  let ui := strLower (strStrip input)
  match (if strIsDigit ui then
           (if 1 ≤ digitsToNat ui ∧ digitsToNat ui ≤ workflowCategories.length
            then workflowCategories[digitsToNat ui - 1]?
            else none)
         else none) with
  | some c => some c
  | none =>
    workflowCategories.find? (fun c =>
      strContains ui (strLower c) || strContains (strLower c) ui)

/-- The claim's reading of the parser: digit tokens decide by range alone
(never by substring), other inputs by the substring scan. -/
def specCategorySelection (input : String) : Option String :=
  let ui := strLower (strStrip input)
  if strIsDigit ui then
    (if 1 ≤ digitsToNat ui ∧ digitsToNat ui ≤ workflowCategories.length
     then workflowCategories[digitsToNat ui - 1]?
     else none)
  else
    workflowCategories.find? (fun c =>
      strContains ui (strLower c) || strContains (strLower c) ui)

/-- `SocraticController._handle_framing_stage`, restricted to its effect on
the conversation state: a parsed category is stored and the stage moves to
INQUIRY; otherwise the state is untouched (the handler only re-presents the
menu). -/
def handleFramingState (s : List (String × JVal)) (input t : String) :
    List (String × JVal) :=
  match parseCategorySelection input with
  | some c => setWorkflowStage (setWorkflowCategory s c t) "inquiry" t
  | none => s

theorem chars_of_prefixAt (pat l : List Char) (h : prefixAt pat l = true) :
    ∀ c ∈ pat, c ∈ l := by
  induction pat generalizing l with
  | nil => simp
  | cons p ps ih =>
    cases l with
    | nil => simp [prefixAt] at h
    | cons x xs =>
      simp only [prefixAt, Bool.and_eq_true, decide_eq_true_eq] at h
      intro c hc
      rcases List.mem_cons.mp hc with rfl | hc'
      · exact h.1 ▸ List.mem_cons_self _ _
      · exact List.mem_cons_of_mem _ (ih xs h.2 c hc')

theorem chars_of_subAt (pat hay : List Char) (h : subAt pat hay = true) :
    ∀ c ∈ pat, c ∈ hay := by
  induction hay with
  | nil =>
    cases pat with
    | nil => simp
    | cons p ps => simp [subAt, prefixAt] at h
  | cons x xs ih =>
    simp only [subAt, Bool.or_eq_true] at h
    rcases h with h | h
    · exact chars_of_prefixAt pat (x :: xs) h
    · exact fun c hc => List.mem_cons_of_mem _ (ih h c hc)

theorem no_digit_substring_match (ui lc : String)
    (hd : strIsDigit ui = true)
    (hnodig : ∀ ch ∈ lc.data, ch.isDigit = false)
    (hne : lc.data ≠ []) :
    (strContains ui lc || strContains lc ui) = false := by
  have hsplit : (!ui.data.isEmpty) = true ∧ ui.data.all Char.isDigit = true := by
    simpa [strIsDigit] using hd
  have hui_ne : ui.data ≠ [] := by
    intro hcontra
    rw [hcontra] at hsplit
    simp at hsplit
  have hui_dig : ∀ ch ∈ ui.data, ch.isDigit = true := by
    intro ch hch
    exact List.all_eq_true.mp hsplit.2 ch hch
  apply Bool.or_eq_false_iff.mpr
  constructor
  · by_contra hcon
    rw [Bool.not_eq_false] at hcon
    have hsub := chars_of_subAt lc.data ui.data hcon
    obtain ⟨c0, hc0⟩ := List.exists_mem_of_ne_nil lc.data hne
    have h1 := hui_dig c0 (hsub c0 hc0)
    have h2 := hnodig c0 hc0
    rw [h1] at h2
    exact Bool.noConfusion h2
  · by_contra hcon
    rw [Bool.not_eq_false] at hcon
    have hsub := chars_of_subAt ui.data lc.data hcon
    obtain ⟨c0, hc0⟩ := List.exists_mem_of_ne_nil ui.data hui_ne
    have h1 := hnodig c0 (hsub c0 hc0)
    have h2 := hui_dig c0 hc0
    rw [h1] at h2
    exact Bool.noConfusion h2

theorem digit_find_none (ui : String) (hd : strIsDigit ui = true) :
    workflowCategories.find? (fun c =>
      strContains ui (strLower c) || strContains (strLower c) ui) = none := by
  rw [List.find?_eq_none]
  intro c hc
  have : (strContains ui (strLower c) || strContains (strLower c) ui) = false := by
    fin_cases hc <;>
      exact no_digit_substring_match ui _ hd (by decide) (by decide)
  simp [this]

theorem parse_eq_specSelection (input : String) :
    parseCategorySelection input = specCategorySelection input := by
  unfold parseCategorySelection specCategorySelection
  dsimp only
  by_cases hd : strIsDigit (strLower (strStrip input)) = true
  · by_cases hr : 1 ≤ digitsToNat (strLower (strStrip input)) ∧
        digitsToNat (strLower (strStrip input)) ≤ workflowCategories.length
    · have hlen : workflowCategories.length = 4 := rfl
      have hlt : digitsToNat (strLower (strStrip input)) - 1 <
          workflowCategories.length := by omega
      simp [hd, hr, List.getElem?_eq_getElem hlt]
    · simp [hd, hr, digit_find_none _ hd]
  · simp [hd]

/-- C4: in FRAMING, a numeric token `n` with `1 ≤ n ≤ 4` selects the
category at 1-indexed position `n` of the fixed list [chatbot,
data analysis, RAG workflow, content generation] and the state moves to
INQUIRY with that category stored; numeric tokens outside 1..4 and text
matching no category name by case-insensitive substring (in either
direction) parse to `none` (the parser behaves exactly as
`specCategorySelection`), and then the handler leaves the state — its
stage and its selected category — untouched. -/
theorem C4_framing_category_selection (input : String)
    (s : List (String × JVal)) (t : String) :
    parseCategorySelection input = specCategorySelection input ∧
    (∀ n : ℕ, strIsDigit (strLower (strStrip input)) = true →
      digitsToNat (strLower (strStrip input)) = n → 1 ≤ n → n ≤ 4 →
      parseCategorySelection input = workflowCategories[n - 1]?) ∧
    (∀ c, parseCategorySelection input = some c →
      getKey (handleFramingState s input t) "selected_workflow_category" =
        some (.str c) ∧
      getKey (handleFramingState s input t) "current_workflow_stage" =
        some (.str "inquiry")) ∧
    (parseCategorySelection input = none → handleFramingState s input t = s) := by
  refine ⟨parse_eq_specSelection input, ?_, ?_, ?_⟩
  · intro n hd hn h1 h4
    rw [parse_eq_specSelection input]
    unfold specCategorySelection
    rw [if_pos hd, if_pos (by rw [hn]; exact ⟨h1, by simpa [workflowCategories] using h4⟩), hn]
  · intro c hc
    unfold handleFramingState
    rw [hc]
    unfold setWorkflowStage setWorkflowCategory touchState
    constructor
    · rw [getKey_setKey_ne _ _ _ _ (by decide),
        getKey_setKey_ne _ _ _ _ (by decide),
        getKey_setKey_ne _ _ _ _ (by decide)]
      exact getKey_setKey_self _ _ _
    · rw [getKey_setKey_ne _ _ _ _ (by decide)]
      exact getKey_setKey_self _ _ _
  · intro hc
    unfold handleFramingState
    rw [hc]

/-! ## Socratic engine (`socratic_engine.py`): non-repetitive question
selection over the recent conversation window -/

/-- A conversation-history entry (`{"role", "message", "timestamp"}`). -/
structure HistEntry where
  role : String
  message : String
  timestamp : String

/-- Python `l[-5:]` generalized: the last `n` entries. -/
def lastN (n : ℕ) (l : List HistEntry) : List HistEntry :=
  l.drop (l.length - n)

/-- Membership in a list of strings (the recent-questions set: Python
builds a `set`, and only membership is ever consulted). -/
def strMemL (l : List String) (x : String) : Bool := l.any (fun y => y = x)

/-- The recent-questions set built by
`SocraticEngine._select_non_repetitive_question`: lower-cased messages of
the assistant entries among the last 5 history entries. -/
def recentFold (history : List HistEntry) : List String :=
  (lastN 5 history).foldl
    (fun acc e => if e.role = "assistant" then strLower e.message :: acc else acc) []

/-- `SocraticEngine._select_non_repetitive_question`: first candidate whose
lower-cased text is not in the recent set, else the first candidate, else a
fixed fallback for an empty candidate list. -/
def selectNonRepetitiveQuestion (questions : List String)
    (history : List HistEntry) : String :=
  match questions.find? (fun q => !(strMemL (recentFold history) (strLower q))) with
  | some q => q
  | none =>
    match questions with
    | [] => "Can you tell me more about that?"
    | q :: _ => q

/-- Specification-side recent set: lower-cased assistant messages among the
last 5 history entries. -/
def recentAssistantSet (history : List HistEntry) : List String :=
  ((lastN 5 history).filter (fun e => e.role = "assistant")).map
    (fun e => strLower e.message)

/-- `SocraticEngine.CONCEPT_QUESTIONS`: the per-concept follow-up pools
(3 entries per concept). -/
def conceptQuestions : List (String × List String) :=
  [("business",
    ["How does this fit into your business goals?",
     "What\x27s the expected business impact or ROI?",
     "Who are the key stakeholders for this project?"]),
   ("technical",
    ["What existing systems does this need to integrate with?",
     "Are there any technical constraints I should know about?",
     "What\x27s your current technical infrastructure like?"]),
   ("user_experience",
    ["What does a successful user interaction look like?",
     "How tech-savvy are your typical users?",
     "What would make this really valuable for your users?"]),
   ("automation",
    ["What manual processes are you hoping to automate?",
     "How often does this process need to run?",
     "What triggers should start this automation?"]),
   ("real_time",
    ["How quickly do you need responses or results?",
     "What happens if there\x27s a delay in processing?",
     "How will users know when new information is available?"]),
   ("security",
    ["What kind of sensitive information will be handled?",
     "What security or compliance requirements do you have?",
     "Who should have access to this system?"]),
   ("scale",
    ["How many users do you expect?",
     "What\x27s the expected volume of data or requests?",
     "How quickly do you anticipate growth?"])]

theorem strMemL_cons (y : String) (l : List String) (x : String) :
    strMemL (y :: l) x = (decide (y = x) || strMemL l x) := by
  simp [strMemL]

theorem foldl_recent_mem (l : List HistEntry) (acc : List String) (x : String) :
    strMemL (l.foldl
      (fun a e => if e.role = "assistant" then strLower e.message :: a else a)
      acc) x = true ↔
    strMemL acc x = true ∨
      x ∈ (l.filter (fun e => e.role = "assistant")).map (fun e => strLower e.message) := by
  induction l generalizing acc with
  | nil => simp
  | cons e l ih =>
    rw [List.foldl_cons]
    by_cases he : e.role = "assistant"
    · rw [if_pos he, ih, List.filter_cons, if_pos (by simp [he])]
      rw [strMemL_cons]
      simp only [List.map_cons, List.mem_cons, Bool.or_eq_true, decide_eq_true_eq]
      tauto
    · rw [if_neg he, ih, List.filter_cons, if_neg (by simp [he])]

theorem recentFold_mem (h : List HistEntry) (x : String) :
    strMemL (recentFold h) x = true ↔ x ∈ recentAssistantSet h := by
  unfold recentFold recentAssistantSet
  rw [foldl_recent_mem]
  simp [strMemL]

theorem find?_append_first {α : Type} (pred : α → Bool) (pre post : List α)
    (q : α) (hpre : ∀ p ∈ pre, pred p = false) (hq : pred q = true) :
    (pre ++ q :: post).find? pred = some q := by
  induction pre with
  | nil => simp [List.find?_cons_of_pos _ hq]
  | cons a pre' ih =>
    rw [List.cons_append,
      List.find?_cons_of_neg _ (by simp [hpre a (List.mem_cons_self _ _)])]
    exact ih fun p hp => hpre p (List.mem_cons_of_mem _ hp)

/-- C7: question selection scans only the last 5 history entries, collects
the assistant messages case-insensitively, returns the first candidate not
in that set, and falls back to the first candidate when every candidate is
in the set; in particular whenever some candidate of the pool is unasked
within the window, the selected question is not a verbatim repeat of a
recent assistant message. -/
theorem C7_select_non_repetitive (qs : List String) (h : List HistEntry)
    (hne : qs ≠ []) :
    (selectNonRepetitiveQuestion qs h ∈ qs) ∧
    ((∃ q ∈ qs, strLower q ∉ recentAssistantSet h) →
      strLower (selectNonRepetitiveQuestion qs h) ∉ recentAssistantSet h) ∧
    (∀ pre q post, qs = pre ++ q :: post →
      (∀ p ∈ pre, strLower p ∈ recentAssistantSet h) →
      strLower q ∉ recentAssistantSet h →
      selectNonRepetitiveQuestion qs h = q) ∧
    ((∀ q ∈ qs, strLower q ∈ recentAssistantSet h) →
      selectNonRepetitiveQuestion qs h = qs.headD "") := by
  refine ⟨?_, ?_, ?_, ?_⟩
  · unfold selectNonRepetitiveQuestion
    cases hf : qs.find?
        (fun q => !(strMemL (recentFold h) (strLower q))) with
    | some q => exact List.mem_of_find?_eq_some hf
    | none =>
      cases qs with
      | nil => exact absurd rfl hne
      | cons q rest => exact List.mem_cons_self _ _
  · rintro ⟨q0, hq0, hq0r⟩
    unfold selectNonRepetitiveQuestion
    cases hf : qs.find?
        (fun q => !(strMemL (recentFold h) (strLower q))) with
    | some q =>
      have hpred := List.find?_some hf
      simp only [Bool.not_eq_true'] at hpred
      intro hcontra
      rw [← recentFold_mem] at hcontra
      rw [hpred] at hcontra
      exact Bool.noConfusion hcontra
    | none =>
      exfalso
      have hall := List.find?_eq_none.mp hf q0 hq0
      simp only [Bool.not_eq_true', Bool.not_eq_false] at hall
      rw [recentFold_mem] at hall
      exact hq0r hall
  · intro pre q post heq hpre hq
    unfold selectNonRepetitiveQuestion
    subst heq
    rw [find?_append_first _ pre post q ?hpre ?hq]
    case hpre =>
      intro p hp
      have := hpre p hp
      rw [← recentFold_mem] at this
      simp [this]
    case hq =>
      cases hb : strMemL (recentFold h) (strLower q) with
      | false => rfl
      | true => exact absurd ((recentFold_mem h (strLower q)).mp hb) hq
  · intro hall
    unfold selectNonRepetitiveQuestion
    have hf : qs.find?
        (fun q => !(strMemL (recentFold h) (strLower q))) = none := by
      rw [List.find?_eq_none]
      intro q hq
      have := hall q hq
      rw [← recentFold_mem] at this
      simp [this]
    rw [hf]
    cases qs with
    | nil => exact absurd rfl hne
    | cons q rest => rfl

/-- Witness for C7: the 3-entry "business" follow-up pool with the first
entry already asked in the recent window selects the second entry. -/
theorem C7_select_witness :
    selectNonRepetitiveQuestion
      ["How does this fit into your business goals?",
       "What\x27s the expected business impact or ROI?",
       "Who are the key stakeholders for this project?"]
      [⟨"user", "i run a business", "T1"⟩,
       ⟨"assistant", "How does this fit into your business goals?", "T2"⟩] =
      "What\x27s the expected business impact or ROI?" := by
  refine (C7_select_non_repetitive _ _ (by simp)).2.2.1
    ["How does this fit into your business goals?"]
    "What\x27s the expected business impact or ROI?"
    ["Who are the key stakeholders for this project?"] rfl ?_ ?_
  · intro p hp
    fin_cases hp
    decide
  · decide

/-! ## Domain discovery data model and the component recommender
(`domain_discovery.py`) -/

/-- `DomainSource`. -/
inductive DomainSource where
  | conversation
  | mcp
  | webSearch
  | hybrid
  | cached

/-- `ExpertiseLevel`. -/
inductive ExpertiseLevel where
  | beginner
  | intermediate
  | advanced

/-- `DomainKnowledge` (times in unix milliseconds; lists as in the source). -/
structure DomainKnowledge where
  domain : String
  concepts : List String := []
  technologies : List String := []
  best_practices : List String := []
  common_patterns : List String := []
  compliance_frameworks : List String := []
  sources : List String := []
  last_updated : ℕ

/-- `DomainContext` (confidence in twentieths, metadata as JSON entries). -/
structure DomainContext where
  domain : String
  confidence : ℕ
  indicators : List String
  timestamp : ℕ
  source : DomainSource
  metadata : List (String × JVal) := []

/-- `EnhancedDomainContext` (the dataclass inheritance flattened). -/
structure EnhancedDomainContext where
  domain : String
  confidence : ℕ
  indicators : List String
  timestamp : ℕ
  source : DomainSource
  metadata : List (String × JVal) := []
  knowledge : DomainKnowledge
  related_domains : List String := []
  expertise_level : ExpertiseLevel := .intermediate
  compliance_frameworks : List String := []

/-- `ComponentRecommendation` (relevance score in twentieths). -/
structure ComponentRecommendation where
  component_type : String
  name : String
  description : String
  relevance_score : ℕ
  domain_specific : Bool
  usage_patterns : List String := []
  source : String := "langflow"

/-- `DomainDiscoveryEngine._get_base_components_for_domain`. -/
def getBaseComponentsForDomain (domain : String) : List ComponentRecommendation :=
  if domain = "technology" ∨ domain = "api" ∨ domain = "integration" then
    [⟨"api_connector", "HTTP Request", "Make HTTP API calls with authentication",
      18, true, ["api-integration", "external-service"], "langflow"⟩,
     ⟨"data_transformer", "JSON Processor", "Parse and transform JSON data",
      16, true, ["data-processing", "api-response"], "langflow"⟩]
  else if domain = "healthcare" then
    [⟨"data_validator", "HIPAA Validator", "Validate data for HIPAA compliance",
      19, true, ["compliance", "data-validation"], "langflow"⟩,
     ⟨"audit_logger", "Audit Trail Logger", "Log actions for compliance auditing",
      18, true, ["compliance", "audit"], "langflow"⟩]
  else if domain = "finance" then
    [⟨"encryption", "Financial Data Encryptor", "Encrypt sensitive financial data",
      19, true, ["security", "compliance"], "langflow"⟩,
     ⟨"transaction_processor", "Transaction Validator", "Validate financial transactions",
      18, true, ["validation", "transaction"], "langflow"⟩]
  else []

/-- `DomainDiscoveryEngine._get_components_for_technology` (two independent
`if`s, so both can contribute). -/
def getComponentsForTechnology (technology : String) : List ComponentRecommendation :=
  (if strContains (strLower technology) "python" then
    [⟨"code_executor", "Python Code", "Execute Python code snippets",
      17, false, ["scripting", "data-analysis"], "langflow"⟩]
   else []) ++
  (if strContains (strLower technology) "database" then
    [⟨"database_connector", "Database Query", "Execute database queries",
      18, false, ["data-access", "query"], "langflow"⟩]
   else [])

/-- `DomainDiscoveryEngine._get_components_for_pattern`. -/
def getComponentsForPattern (pat : String) : List ComponentRecommendation :=
  (if strContains (strLower pat) "authentication" then
    [⟨"auth_handler", "OAuth Authenticator", "Handle OAuth authentication flows",
      18, true, ["security", "user-auth"], "langflow"⟩]
   else []) ++
  (if strContains (strLower pat) "validation" then
    [⟨"validator", "Data Validator", "Validate data against schemas",
      16, false, ["validation", "data-quality"], "langflow"⟩]
   else [])

/-- `DomainDiscoveryEngine._get_components_for_compliance`. -/
def getComponentsForCompliance (framework : String) : List ComponentRecommendation :=
  if framework = "HIPAA" then
    [⟨"phi_handler", "PHI Data Handler", "Handle Protected Health Information securely",
      19, true, ["hipaa", "healthcare"], "langflow"⟩,
     ⟨"access_logger", "Access Log Monitor", "Monitor and log data access for HIPAA compliance",
      18, true, ["audit", "compliance"], "langflow"⟩]
  else if framework = "GDPR" then
    [⟨"consent_manager", "Consent Manager", "Manage user consent for data processing",
      18, true, ["gdpr", "privacy"], "langflow"⟩]
  else []

/-- The descending order Python's
`sort(key=lambda x: (x.domain_specific, x.relevance_score), reverse=True)`
realizes: `a` may come before `b` iff the key pair of `a` is lexicographically
at least that of `b` (with `True > False`). -/
def recLe (a b : ComponentRecommendation) : Bool :=
  if a.domain_specific = b.domain_specific
  then b.relevance_score ≤ a.relevance_score
  else a.domain_specific

/-- The concatenation of the four candidate generators, in source order. -/
def candidateRecommendations (ctx : EnhancedDomainContext) :
    List ComponentRecommendation :=
  getBaseComponentsForDomain ctx.domain ++
  ctx.knowledge.technologies.flatMap getComponentsForTechnology ++
  ctx.knowledge.common_patterns.flatMap getComponentsForPattern ++
  ctx.compliance_frameworks.flatMap getComponentsForCompliance

/-- `DomainDiscoveryEngine.generate_component_recommendations`: concatenate
the four generators, sort descending by `(domain_specific, relevance_score)`
(Python's stable sort), return the top 10. -/
def generateComponentRecommendations (ctx : EnhancedDomainContext) :
    List ComponentRecommendation :=
  ((candidateRecommendations ctx).mergeSort recLe).take 10

theorem recLe_trans (a b c : ComponentRecommendation)
    (h1 : recLe a b = true) (h2 : recLe b c = true) : recLe a c = true := by
  unfold recLe at *
  cases hda : a.domain_specific <;> cases hdb : b.domain_specific <;>
    cases hdc : c.domain_specific <;> simp_all <;> omega

theorem recLe_total (a b : ComponentRecommendation) :
    (recLe a b || recLe b a) = true := by
  unfold recLe
  cases hda : a.domain_specific <;> cases hdb : b.domain_specific <;>
    simp_all <;> omega

theorem recLe_iff (a b : ComponentRecommendation) :
    recLe a b = true ↔
      ((a.domain_specific = true ∧ b.domain_specific = false) ∨
       (a.domain_specific = b.domain_specific ∧
        b.relevance_score ≤ a.relevance_score)) := by
  unfold recLe
  cases hda : a.domain_specific <;> cases hdb : b.domain_specific <;> simp_all

/-- C6: the recommendation list is the concatenation of the four candidate
generators sorted descending by the pair (domainSpecific, relevanceScore) —
hence every domain-specific item precedes every generic one — truncated to
at most 10 elements (it is a prefix of a permutation of the candidate
concatenation). -/
theorem C6_generate_component_recommendations (ctx : EnhancedDomainContext) :
    (generateComponentRecommendations ctx).length ≤ 10 ∧
    List.Pairwise (fun a b =>
      (a.domain_specific = true ∧ b.domain_specific = false) ∨
      (a.domain_specific = b.domain_specific ∧
       b.relevance_score ≤ a.relevance_score))
      (generateComponentRecommendations ctx) ∧
    List.Pairwise (fun a b => b.domain_specific = true → a.domain_specific = true)
      (generateComponentRecommendations ctx) ∧
    ∃ rest, (candidateRecommendations ctx).mergeSort recLe =
        generateComponentRecommendations ctx ++ rest ∧
      ((candidateRecommendations ctx).mergeSort recLe).Perm
        (candidateRecommendations ctx) := by
  have hsorted := List.sorted_mergeSort recLe_trans recLe_total
    (candidateRecommendations ctx)
  have hpair : List.Pairwise (fun a b =>
      (a.domain_specific = true ∧ b.domain_specific = false) ∨
      (a.domain_specific = b.domain_specific ∧
       b.relevance_score ≤ a.relevance_score))
      ((candidateRecommendations ctx).mergeSort recLe) :=
    hsorted.imp fun {a b} h => (recLe_iff a b).mp h
  have hsub : List.Sublist (generateComponentRecommendations ctx)
      ((candidateRecommendations ctx).mergeSort recLe) := by
    unfold generateComponentRecommendations
    exact List.take_sublist _ _
  refine ⟨?_, hpair.sublist hsub, ?_, ?_⟩
  · unfold generateComponentRecommendations
    rw [List.length_take]
    omega
  · exact (hpair.sublist hsub).imp fun {a b} h => by
      rcases h with ⟨ha, hb⟩ | ⟨hab, -⟩
      · intro hcontra
        rw [hcontra] at hb
        exact absurd hb (by simp)
      · intro hb
        rw [hab, hb]
  · refine ⟨((candidateRecommendations ctx).mergeSort recLe).drop 10, ?_,
      List.mergeSort_perm _ _⟩
    unfold generateComponentRecommendations
    rw [List.take_append_drop]

/-! ## Pattern indicator extraction (`_extract_domain_indicators`)

Each source pattern is `\b(alt1|alt2|...)\b` (case-insensitive, applied to
lower-cased text).  The model scans left to right; at each position with a
word boundary before it, the alternatives are tried in order and the first
whose match ends at a word boundary wins; the captured text is emitted and
scanning resumes after it.  A space inside an alternative stands for `\s+`
(maximal munch, equivalent to the greedy regex here because no alternative
literal begins with whitespace). -/

/-- Python regex word character (`\w`, ASCII fragment). -/
def isWordChar (c : Char) : Bool := c.isAlpha || c.isDigit || c = '_'

/-- Match one alternative at the head of `s`; returns consumed length. -/
def matchAlt : List Char → List Char → Option ℕ
  | [], _ => some 0
  | ' ' :: as, s =>
    let w := s.takeWhile isPyWhitespace
    if w.isEmpty then none
    else (matchAlt as (s.drop w.length)).map (fun n => n + w.length)
  | _ :: _, [] => none
  | a :: as, c :: cs => if a = c then (matchAlt as cs).map (fun n => n + 1) else none

/-- `\b` after the match: end of string or a non-word character. -/
def endBoundaryOk (rest : List Char) : Bool :=
  match rest with
  | [] => true
  | c :: _ => !(isWordChar c)

/-- `\b` before the match: start of string or a non-word character. -/
def startBoundaryOk (prev : Option Char) : Bool :=
  match prev with
  | none => true
  | some c => !(isWordChar c)

/-- One scanning pass of `re.findall` (fuel bounds the recursion by the
remaining length; every step consumes at least one character). -/
def scanAux (alts : List (List Char)) : ℕ → Option Char → List Char → List (List Char)
  | 0, _, _ => []
  | _ + 1, _, [] => []
  | fuel + 1, prev, c :: cs =>
    if startBoundaryOk prev then
      match (alts.findSome? fun alt =>
          match matchAlt alt (c :: cs) with
          | some n => if endBoundaryOk ((c :: cs).drop n) then some n else none
          | none => none) with
      | some n =>
        let m := max n 1
        (c :: cs).take m ::
          scanAux alts fuel (((c :: cs).take m).getLast?) ((c :: cs).drop m)
      | none => scanAux alts fuel (some c) cs
    else scanAux alts fuel (some c) cs

/-- `re.findall(r'\b(alt1|...|altk)\b', s, re.IGNORECASE)` on lower-cased
text: the captured texts, left to right. -/
def findallWord (alts : List String) (s : String) : List String :=
  (scanAux (alts.map String.data) (s.data.length + 1) none s.data).map
    (fun l => ⟨l⟩)

/-- `DomainDiscoveryEngine.tech_patterns`. -/
def techPatterns : List (List String) :=
  [["api", "rest", "graphql", "webhook", "database", "sql", "nosql", "orm"],
   ["react", "vue", "angular", "node", "python", "java", "docker", "kubernetes"],
   ["aws", "azure", "gcp", "cloud", "microservice", "serverless"],
   ["authentication", "oauth", "jwt", "security", "encryption"],
   ["ml", "ai", "machine learning", "neural", "nlp", "llm"]]

/-- `DomainDiscoveryEngine.industry_patterns`. -/
def industryPatterns : List (List String) :=
  [["healthcare", "medical", "patient", "clinical", "diagnosis", "treatment"],
   ["finance", "banking", "payment", "trading", "investment", "fintech"],
   ["manufacturing", "supply chain", "inventory", "production", "logistics"],
   ["retail", "e-commerce", "customer", "sales", "marketing", "crm"],
   ["education", "learning", "student", "course", "curriculum", "assessment"],
   ["government", "public", "citizen", "policy", "regulation", "compliance"]]

/-- `DomainDiscoveryEngine.compliance_patterns`. -/
def compliancePatterns : List (List String) :=
  [["gdpr", "privacy", "data protection", "consent", "personal data"],
   ["hipaa", "phi", "hitech", "medical records", "patient privacy"],
   ["sox", "sarbanes", "oxley", "financial reporting", "audit"],
   ["pci", "dss", "payment card", "credit card security"],
   ["fda", "medical device", "clinical trial", "drug approval"],
   ["iso", "27001", "security standard", "information security"]]

/-- First-seen-order deduplication (the source's `seen`-set loop). -/
def dedupFirst (l : List String) : List String :=
  l.foldl (fun acc i => if acc.contains i then acc else acc ++ [i]) []

/-- `DomainDiscoveryEngine._extract_domain_indicators`: all matches of the
three pattern families over the lower-cased text, concatenated in family
order, deduplicated preserving first-seen order. -/
def extractDomainIndicators (text : String) : List String :=
  dedupFirst
    ((techPatterns ++ industryPatterns ++ compliancePatterns).flatMap
      (fun alts => findallWord alts (strLower text)))

example : extractDomainIndicators "patient data" = ["patient"] := by decide
example : extractDomainIndicators "I use an API and a database" =
    ["api", "database"] := by decide
example : findallWord ["ml", "ai"] "html email" = [] := by decide
example : findallWord ["machine learning"] "machine  learning rocks" =
    ["machine  learning"] := by decide

/-! ## Knowledge builder and context enrichment -/

/-- Generic insertion-ordered association update (Python dict assignment). -/
def assocSet {α : Type} : List (String × α) → String → α → List (String × α)
  | [], k, v => [(k, v)]
  | p :: rest, k, v =>
    if p.1 = k then (p.1, v) :: rest else p :: assocSet rest k v

/-- Generic association lookup (Python dict `.get`). -/
def assocGet {α : Type} : List (String × α) → String → Option α
  | [], _ => none
  | p :: rest, k => if p.1 = k then some p.2 else assocGet rest k

/-- A fresh, empty `DomainKnowledge` for `domain` built at time `now`
(times are unix milliseconds). -/
def emptyKnowledge (domain : String) (now : ℕ) : DomainKnowledge :=
  { domain := domain, last_updated := now }

/-- One iteration of `_extract_knowledge_from_hints`' loop body. -/
def knowledgeStep (k : DomainKnowledge) (hint : String) : DomainKnowledge :=
  let hl := strLower hint
  let k1 := { k with technologies :=
    k.technologies ++ techPatterns.flatMap (fun alts => findallWord alts hl) }
  let k2 := if strContains hl "api" then
    { k1 with concepts := k1.concepts ++ ["integration", "service", "endpoint"] }
    else k1
  let k3 := if strContains hl "database" then
    { k2 with concepts := k2.concepts ++ ["data storage", "persistence", "query"] }
    else k2
  let k4 := if strContains hl "security" then
    { k3 with concepts := k3.concepts ++ ["authentication", "authorization", "encryption"] }
    else k3
  if strContains hl "healthcare" || strContains hl "medical" then
    { k4 with best_practices := k4.best_practices ++
      ["HIPAA compliance required", "Patient data protection",
       "Audit trail implementation"] }
  else if strContains hl "finance" || strContains hl "banking" then
    { k4 with best_practices := k4.best_practices ++
      ["Financial data encryption", "Transaction audit logs",
       "Regulatory compliance"] }
  else k4

/-- `DomainDiscoveryEngine._extract_knowledge_from_hints`.  The source's
final `list(set(...))` deduplications iterate a Python set whose order is
unspecified; they are modelled as first-seen-order deduplication — every
claim settled here is insensitive to that order. -/
def extractKnowledgeFromHints (hints : List String) (k : DomainKnowledge) :
    DomainKnowledge :=
  let kk := hints.foldl knowledgeStep k
  { kk with technologies := dedupFirst kk.technologies,
            concepts := dedupFirst kk.concepts,
            best_practices := dedupFirst kk.best_practices }

/-- `DomainDiscoveryEngine._is_knowledge_fresh` (24 hours, in ms). -/
def isKnowledgeFresh (now : ℕ) (k : DomainKnowledge) : Bool :=
  now - k.last_updated < 24 * 60 * 60 * 1000

/-- `" ".join l`. -/
def joinSpace : List String → String
  | [] => ""
  | [x] => x
  | x :: xs => x ++ " " ++ joinSpace xs

/-- `DomainDiscoveryEngine._detect_related_domains` (the `knowledge`
parameter is unused by the source body). -/
def detectRelatedDomains (indicators : List String) : List String :=
  let all := strLower (joinSpace indicators)
  dedupFirst
    ((if strContains all "api" || strContains all "integration"
      then ["integration"] else []) ++
     (if ["aws", "azure", "gcp", "cloud"].any (fun c => strContains all c)
      then ["cloud"] else []) ++
     (if strContains all "security" || strContains all "compliance"
      then ["security"] else []) ++
     (if strContains all "data" || strContains all "analytics"
      then ["data_analytics"] else []))

/-- `DomainDiscoveryEngine._infer_expertise_level`. -/
def inferExpertiseLevel (indicators : List String) : ExpertiseLevel :=
  let all := strLower (joinSpace indicators)
  let advancedCount := (["microservice", "kubernetes", "devops", "architecture",
    "distributed"].filter (fun t => strContains all t)).length
  let intermediateCount := (["api", "database", "framework", "integration",
    "authentication"].filter (fun t => strContains all t)).length
  if advancedCount > 2 then .advanced
  else if intermediateCount > 1 then .intermediate
  else .beginner

/-- `DomainDiscoveryEngine._detect_compliance_frameworks`. -/
def detectComplianceFrameworks (indicators : List String)
    (knowledge : DomainKnowledge) : List String :=
  let all := strLower (joinSpace
    (indicators ++ knowledge.concepts ++ knowledge.best_practices))
  (if strContains all "hipaa" || strContains all "healthcare"
   then ["HIPAA"] else []) ++
  (if strContains all "gdpr" || strContains all "privacy"
   then ["GDPR"] else []) ++
  (if strContains all "sox" || strContains all "sarbanes"
   then ["SOX"] else []) ++
  (if strContains all "pci" || strContains all "payment"
   then ["PCI-DSS"] else []) ++
  (if strContains all "fda" || strContains all "medical device"
   then ["FDA"] else [])

/-- `DomainDiscoveryEngine.query_domain_knowledge`: the first hint is the
cache key; a fresh cached entry is reused, otherwise knowledge is built
from all hints and cached.  Returns the knowledge and the updated cache. -/
def queryDomainKnowledge (cache : List (String × DomainKnowledge)) (now : ℕ)
    (domainHints : List String) :
    DomainKnowledge × List (String × DomainKnowledge) :=
  let domain := domainHints.headD "general"
  match assocGet cache domain with
  | some cached =>
    if isKnowledgeFresh now cached then (cached, cache)
    else
      let k := extractKnowledgeFromHints domainHints (emptyKnowledge domain now)
      (k, assocSet cache domain k)
  | none =>
    let k := extractKnowledgeFromHints domainHints (emptyKnowledge domain now)
    (k, assocSet cache domain k)

/-- `DomainDiscoveryEngine.enhance_with_context_analysis`: queries domain
knowledge with `[domain_context.domain]` as the only hint, then derives
related domains, expertise level and compliance frameworks from the
context's indicators. -/
def enhanceWithContextAnalysis (cache : List (String × DomainKnowledge))
    (now : ℕ) (ctx : DomainContext) :
    EnhancedDomainContext × List (String × DomainKnowledge) :=
  let qk := queryDomainKnowledge cache now [ctx.domain]
  ({ domain := ctx.domain,
     confidence := ctx.confidence,
     indicators := ctx.indicators,
     timestamp := ctx.timestamp,
     source := ctx.source,
     metadata := ctx.metadata,
     knowledge := qk.1,
     related_domains := detectRelatedDomains ctx.indicators,
     expertise_level := inferExpertiseLevel ctx.indicators,
     compliance_frameworks := detectComplianceFrameworks ctx.indicators qk.1 },
   qk.2)

/-! ## `analyze_user_context` and `activate_domain_expertise` -/

/-- The `DomainContext` built by `analyze_user_context`'s try-block
(extract indicators, classify, conditionally enhance). -/
def analyzeUserContextOk (text : String) (session : Option String) (t : ℕ) :
    DomainContext :=
  let indicators := extractDomainIndicators text
  let dc := analyzeClassification indicators
  { domain := dc.1,
    confidence := dc.2,
    indicators := indicators,
    timestamp := t,
    source := .conversation,
    metadata := [("session_id", match session with
                  | some s => JVal.str s
                  | none => JVal.null),
                 ("input_length", JVal.num (text.length : ℤ)),
                 ("indicator_count", JVal.num (indicators.length : ℤ))] }

/-- `analyze_user_context`'s `try/except` boundary: the handler applied to
the outcome of the guarded block.  An exception (`Except.error e`) is
converted into the low-confidence general context carrying the error text
in metadata; a normal outcome passes through. -/
def analyzeUserContextR (t : ℕ) (body : Except String DomainContext) :
    DomainContext :=
  match body with
  | .ok ctx => ctx
  | .error e =>
    { domain := "general",
      confidence := 2,
      indicators := [],
      timestamp := t,
      source := .conversation,
      metadata := [("error", JVal.str e)] }

/-- `DomainDiscoveryEngine.analyze_user_context` (its guarded block never
raises in the embedding, so the deployed composition is the happy path). -/
def analyzeUserContext (text : String) (session : Option String) (t : ℕ) :
    DomainContext :=
  analyzeUserContextR t (.ok (analyzeUserContextOk text session t))

/-! ## Decimal rendering of the unix timestamp in the persistence key -/

/-- Digits of `n` prepended to `acc` (fuel-bounded; `fuel = n` suffices). -/
def natDecAux : ℕ → ℕ → List Char → List Char
  | 0, n, acc => Nat.digitChar (n % 10) :: acc
  | fuel + 1, n, acc =>
    if n < 10 then Nat.digitChar n :: acc
    else natDecAux fuel (n / 10) (Nat.digitChar (n % 10) :: acc)

/-- Decimal rendering of a natural number, the embedding of the f-string's
`{int(...)}`. -/
def natDec (n : ℕ) : String := ⟨natDecAux n n []⟩

/-- Value read back from a digit string (proof-side decoder). -/
def decStep (x : ℕ) (c : Char) : ℕ := 10 * x + (c.toNat - 48)

theorem digitChar_val (d : ℕ) (h : d < 10) : (Nat.digitChar d).toNat - 48 = d := by
  revert h
  revert d
  decide

theorem natDecAux_decode (fuel : ℕ) : ∀ n acc, n ≤ fuel →
    (natDecAux fuel n acc).foldl decStep 0 = acc.foldl decStep n := by
  induction fuel with
  | zero =>
    intro n acc hn
    interval_cases n
    rw [natDecAux, List.foldl_cons]
    rw [show decStep 0 (Nat.digitChar (0 % 10)) = 0 from by decide]
  | succ fuel ih =>
    intro n acc hn
    by_cases h10 : n < 10
    · rw [natDecAux, if_pos h10, List.foldl_cons]
      rw [show decStep 0 (Nat.digitChar n) = n from by
        unfold decStep
        rw [digitChar_val n h10]
        omega]
    · rw [natDecAux, if_neg h10]
      have hle : n / 10 ≤ fuel := by omega
      rw [ih (n / 10) (Nat.digitChar (n % 10) :: acc) hle, List.foldl_cons]
      rw [show decStep (n / 10) (Nat.digitChar (n % 10)) = n from by
        unfold decStep
        rw [digitChar_val (n % 10) (Nat.mod_lt n (by omega))]
        omega]

theorem natDec_injective (a b : ℕ) (h : natDec a = natDec b) : a = b := by
  have hdata : natDecAux a a [] = natDecAux b b [] := congrArg String.data h
  have ha := natDecAux_decode a a [] (le_refl a)
  have hb := natDecAux_decode b b [] (le_refl b)
  rw [hdata] at ha
  have ha' : (natDecAux b b []).foldl decStep 0 = a := by simpa using ha
  have hb' : (natDecAux b b []).foldl decStep 0 = b := by simpa using hb
  exact ha'.symm.trans hb'

/-! ## The discovery engine's mutable state and `activate_domain_expertise` -/

/-- `DomainActivationResult`. -/
structure DomainActivationResult where
  success : Bool
  domain_context : EnhancedDomainContext
  recommendations : List ComponentRecommendation := []
  persistence_key : String := ""
  error : Option String := none

/-- The engine's process-lifetime maps (`active_contexts`,
`knowledge_cache`). -/
structure EngineState where
  active_contexts : List (String × EnhancedDomainContext) := []
  knowledge_cache : List (String × DomainKnowledge) := []

/-- `DomainDiscoveryEngine.activate_domain_expertise` (the try-block, which
in the embedding always succeeds): analyze, enhance, recommend, store the
context under the session id, and synthesize the persistence key
`{session_id}-{domain}-{unix seconds}` from the activation time `t` (unix
milliseconds; `int(...timestamp())` is `t / 1000`). -/
def activateDomainExpertise (es : EngineState) (text session : String)
    (t : ℕ) : DomainActivationResult × EngineState :=
  let ctx := analyzeUserContext text (some session) t
  let enh := enhanceWithContextAnalysis es.knowledge_cache t ctx
  let recs := generateComponentRecommendations enh.1
  ({ success := true,
     domain_context := enh.1,
     recommendations := recs,
     persistence_key :=
       session ++ "-" ++ enh.1.domain ++ "-" ++ natDec (t / 1000),
     error := none },
   { active_contexts := assocSet es.active_contexts session enh.1,
     knowledge_cache := enh.2 })

/-- C8: the catch-all around `analyze_user_context` never propagates: every
outcome of the guarded block yields a `DomainContext`; an internal
exception `e` yields exactly the context with domain "general", confidence
0.1 (2 twentieths, `confQ 2 = 1/10`), empty indicator list and the error
text stored in metadata; a normal outcome passes through unchanged, and
the deployed pipeline is the handler applied to its (never-raising)
guarded block. -/
theorem C8_analyze_recovers_errors (t : ℕ) (body : Except String DomainContext)
    (text : String) (session : Option String) :
    (∀ e, body = .error e → analyzeUserContextR t body =
      { domain := "general", confidence := 2, indicators := [],
        timestamp := t, source := .conversation,
        metadata := [("error", JVal.str e)] }) ∧
    (∀ ctx, body = .ok ctx → analyzeUserContextR t body = ctx) ∧
    analyzeUserContext text session t =
      analyzeUserContextR t (.ok (analyzeUserContextOk text session t)) ∧
    confQ 2 = 1/10 := by
  refine ⟨?_, ?_, rfl, by norm_num [confQ]⟩
  · rintro e rfl
    rfl
  · rintro ctx rfl
    rfl

/-- C3 (amended): every persistence key has the form
`{sessionId}-{domain}-{unixSeconds}`; activation succeeds; and for the same
session and resulting domain, two activations get distinct keys exactly
when their whole-second activation times differ — in particular calls
within the same whole second yield identical keys, so the key is not
unique per activation. -/
theorem C3_persistence_key_shape (es es' : EngineState)
    (text text' session : String) (t t' : ℕ) :
    (activateDomainExpertise es text session t).1.persistence_key =
      session ++ "-" ++
        (activateDomainExpertise es text session t).1.domain_context.domain ++
        "-" ++ natDec (t / 1000) ∧
    (activateDomainExpertise es text session t).1.success = true ∧
    ((activateDomainExpertise es text session t).1.domain_context.domain =
        (activateDomainExpertise es' text' session t').1.domain_context.domain →
      t / 1000 ≠ t' / 1000 →
      (activateDomainExpertise es text session t).1.persistence_key ≠
        (activateDomainExpertise es' text' session t').1.persistence_key) := by
  refine ⟨rfl, rfl, ?_⟩
  intro hdom hne hcontra
  apply hne
  apply natDec_injective
  have h1 : (activateDomainExpertise es text session t).1.persistence_key =
      session ++ "-" ++
        (activateDomainExpertise es text session t).1.domain_context.domain ++
        "-" ++ natDec (t / 1000) := rfl
  have h2 : (activateDomainExpertise es' text' session t').1.persistence_key =
      session ++ "-" ++
        (activateDomainExpertise es' text' session t').1.domain_context.domain ++
        "-" ++ natDec (t' / 1000) := rfl
  rw [h1, h2, ← hdom] at hcontra
  have hlist := congrArg String.data hcontra
  simp only [String.data_append] at hlist
  rw [List.append_assoc, List.append_assoc, List.append_assoc,
    List.append_assoc, List.append_assoc, List.append_assoc] at hlist
  have := List.append_cancel_left hlist
  have := List.append_cancel_left this
  have := List.append_cancel_left this
  have := List.append_cancel_left this
  have hfin : (natDec (t / 1000)).data = (natDec (t' / 1000)).data := this
  exact congrArg String.mk hfin

/-- Counterexample to C3 as stated: two activations with the same session
id and the same input text, 500 ms apart inside the same whole second
(unix ms 100000 and 100500, both second 100), return the *same*
persistence key "s-healthcare-100", not distinct ones. -/
theorem C3_counterexample :
    (activateDomainExpertise ⟨[], []⟩ "patient data" "s" 100000).1.persistence_key =
      (activateDomainExpertise
        ((activateDomainExpertise ⟨[], []⟩ "patient data" "s" 100000).2)
        "patient data" "s" 100500).1.persistence_key ∧
    (activateDomainExpertise ⟨[], []⟩ "patient data" "s" 100000).1.persistence_key =
      "s-healthcare-100" := by
  constructor
  · rfl
  · rfl

/-- C10 (amended): for a context whose domain is one of the classifier's
own outputs, `enhance_with_context_analysis` passes only `[domain]` as the
hint list — the knowledge attached is a function of the domain name alone,
ignoring the context's indicators — and whenever the knowledge cache holds
no fresh entry for that domain, the freshly built knowledge has empty
`technologies` and empty `concepts` (no technology regex matches any of
the seven domain names), so the technology-driven recommendation generator
contributes nothing through this path. -/
theorem C10_enhance_builds_from_domain_name (cache : List (String × DomainKnowledge))
    (now : ℕ) (ctx ctx' : DomainContext)
    (hd : ctx.domain ∈ ["healthcare", "finance", "manufacturing", "retail",
      "education", "technology", "general"])
    (hmiss : ∀ ck, assocGet cache ctx.domain = some ck →
      isKnowledgeFresh now ck = false) :
    (enhanceWithContextAnalysis cache now ctx).1.knowledge =
      extractKnowledgeFromHints [ctx.domain] (emptyKnowledge ctx.domain now) ∧
    (enhanceWithContextAnalysis cache now ctx).1.knowledge.technologies = [] ∧
    (enhanceWithContextAnalysis cache now ctx).1.knowledge.concepts = [] ∧
    (enhanceWithContextAnalysis cache now ctx).1.knowledge.technologies.flatMap
      getComponentsForTechnology = [] ∧
    (ctx'.domain = ctx.domain →
      (enhanceWithContextAnalysis cache now ctx').1.knowledge =
        (enhanceWithContextAnalysis cache now ctx).1.knowledge) := by
  have hq : (queryDomainKnowledge cache now [ctx.domain]).1 =
      extractKnowledgeFromHints [ctx.domain] (emptyKnowledge ctx.domain now) := by
    rcases hget : assocGet cache ctx.domain with _ | ck
    · simp [queryDomainKnowledge, hget]
    · simp [queryDomainKnowledge, hget, hmiss ck hget]
  have h1 : (enhanceWithContextAnalysis cache now ctx).1.knowledge =
      (queryDomainKnowledge cache now [ctx.domain]).1 := rfl
  have htech : (extractKnowledgeFromHints [ctx.domain]
      (emptyKnowledge ctx.domain now)).technologies = [] := by
    simp only [List.mem_cons, List.not_mem_nil, or_false] at hd
    rcases hd with h|h|h|h|h|h|h <;> rw [h] <;> rfl
  have hconc : (extractKnowledgeFromHints [ctx.domain]
      (emptyKnowledge ctx.domain now)).concepts = [] := by
    simp only [List.mem_cons, List.not_mem_nil, or_false] at hd
    rcases hd with h|h|h|h|h|h|h <;> rw [h] <;> rfl
  refine ⟨h1.trans hq, ?_, ?_, ?_, ?_⟩
  · rw [h1, hq]; exact htech
  · rw [h1, hq]; exact hconc
  · rw [h1, hq, htech]; rfl
  · intro hdd
    have h2 : (enhanceWithContextAnalysis cache now ctx').1.knowledge =
        (queryDomainKnowledge cache now [ctx'.domain]).1 := rfl
    rw [h1, h2, hdd]

/-- Witness for C10's amended claim: a "healthcare" context enhanced
against an empty cache gets knowledge with no technologies. -/
theorem C10_enhance_witness :
    (enhanceWithContextAnalysis [] 0
      { domain := "healthcare", confidence := 14, indicators := ["patient"],
        timestamp := 0, source := .conversation,
        metadata := [] }).1.knowledge.technologies = [] :=
  (C10_enhance_builds_from_domain_name [] 0
    { domain := "healthcare", confidence := 14, indicators := ["patient"],
      timestamp := 0, source := .conversation, metadata := [] }
    { domain := "healthcare", confidence := 14, indicators := ["patient"],
      timestamp := 0, source := .conversation, metadata := [] }
    (by decide) (fun ck h => by cases h)).2.1

/-- Counterexample to C10 as stated: after a direct
`query_domain_knowledge(["healthcare", "api"])` call caches knowledge under
"healthcare", enhancing a "healthcare" context within the freshness window
attaches that cached knowledge, whose `technologies` list is ["api"], not
empty. -/
theorem C10_counterexample :
    (enhanceWithContextAnalysis
      (queryDomainKnowledge [] 0 ["healthcare", "api"]).2 1000
      { domain := "healthcare", confidence := 14, indicators := ["patient"],
        timestamp := 1000, source := .conversation,
        metadata := [] }).1.knowledge.technologies = ["api"] := by
  decide
